import Mathlib

/-!
Verification development for the SyncLoop scaffolding engine.

The definitions below are a shallow embedding of the repository's
scaffolding engine (`src/init.ts`) and of the markdown link rewriter of
its server (`src/server.ts`).  Modelling conventions:

* JS strings are modelled by `String` / `List Char`; the two regular
  expressions of `applyStacks` and the link regex are replaced by
  equivalent deterministic matchers (JS `$`-escapes in replacement
  strings are not modelled, no replacement string of the engine uses
  them).
* The filesystem is a structure of total functions: a file map, a
  directory set and a directory-listing oracle; `JSON.parse` is an
  abstract parameter of the model.
* `path.resolve` is modelled as the identity on the already-absolute
  project root, and `path.join root rel` as `/`-concatenation, which
  agrees with Node for the normalized relative paths the engine uses.
* Brace characters inside string literals are written with `\x7b` and
  `\x7d` escapes; the denoted strings are the plain brace characters.
-/

namespace SyncLoop

abbrev Chars := List Char

/-! ### Generic string machinery: replaceAll, occurrence test -/

/-- `String.prototype.replaceAll` with a plain-string needle: replace every
occurrence, scanning left to right, never rescanning the replacement. -/
def replaceAllL (needle repl : Chars) : Chars → Chars
  | [] => []
  | c :: rest =>
    if h : needle ≠ [] ∧ needle.isPrefixOf (c :: rest) then
      repl ++ replaceAllL needle repl (List.drop needle.length (c :: rest))
    else
      c :: replaceAllL needle repl rest
termination_by l => l.length
decreasing_by
  · have hpos : 0 < needle.length := List.length_pos.mpr h.1
    simp only [List.length_drop, List.length_cons]
    omega
  · simp

/-- Does `needle` occur as a contiguous substring? -/
def occursL (needle : Chars) : Chars → Bool
  | [] => needle.isPrefixOf []
  | c :: rest => needle.isPrefixOf (c :: rest) || occursL needle rest

def occursStr (needle s : String) : Bool := occursL needle.data s.data

theorem replaceAllL_of_not_occurs (needle repl s : Chars)
    (h : occursL needle s = false) : replaceAllL needle repl s = s := by
  induction s with
  | nil => rw [replaceAllL]
  | cons c rest ih =>
    rw [occursL, Bool.or_eq_false_iff] at h
    rw [replaceAllL, dif_neg, ih h.2]
    rintro ⟨-, hpre⟩
    rw [h.1] at hpre
    cases hpre

theorem replaceAllL_self (needle repl : Chars) (h : needle ≠ []) :
    replaceAllL needle repl needle = repl := by
  cases needle with
  | nil => exact absurd rfl h
  | cons c cs =>
    rw [replaceAllL, dif_pos]
    · rw [show List.drop (c :: cs).length (c :: cs) = [] by simp]
      rw [replaceAllL]
      simp
    · exact ⟨h, List.isPrefixOf_iff_prefix.mpr (List.prefix_refl _)⟩

/-- Non-global regex replace: find the earliest position where `matcher`
matches (returning the match length), splice in `repl` there; otherwise
return the input unchanged. -/
def replaceFirstWith (matcher : Chars → Option Nat) (repl : Chars) : Chars → Chars
  | [] =>
    match matcher [] with
    | some _ => repl
    | none => []
  | c :: rest =>
    match matcher (c :: rest) with
    | some n => repl ++ List.drop n (c :: rest)
    | none => c :: replaceFirstWith matcher repl rest

theorem replaceFirstWith_eq_self (m : Chars → Option Nat) (r s : Chars)
    (h : ∀ t ∈ s.tails, m t = none) : replaceFirstWith m r s = s := by
  induction s with
  | nil =>
    rw [replaceFirstWith, h [] (by simp)]
  | cons c rest ih =>
    rw [replaceFirstWith, h (c :: rest) (by simp)]
    rw [ih]
    intro t ht
    exact h t (by rw [List.tails_cons]; exact List.mem_cons_of_mem _ ht)

/-! ### Line splitting and the markdown link rewriter (src/server.ts) -/

/-- The whitespace characters recognized by the model (the ASCII part of
the JS `\s` class / `trimStart`). -/
def isJsSpace (c : Char) : Bool :=
  c = ' ' || c = '\t' || c = '\n' || c = '\r' || c = '\x0b' || c = '\x0c'

def trimStartL (l : Chars) : Chars := l.dropWhile isJsSpace

/-- JS `value.trim()`. -/
def trimStr (s : String) : String :=
  (((s.data.dropWhile isJsSpace).reverse.dropWhile isJsSpace).reverse).asString

/-- JS `content.split("\n")`. -/
def splitLines (s : String) : List String := (s.data.splitOn '\n').map List.asString

/-- JS `lines.join("\n")`. -/
def joinLines (ls : List String) : String :=
  (['\n'].intercalate (ls.map String.data)).asString

theorem joinLines_splitLines (s : String) : joinLines (splitLines s) = s := by
  unfold joinLines splitLines
  rw [List.map_map]
  have hmap : (String.data ∘ List.asString) = id := by
    funext l
    rfl
  rw [hmap, List.map_id, List.intercalate_splitOn s.data '\n']
  cases s
  rfl

/-- Is the line a fence marker: `line.trimStart().startsWith("```")`. -/
def isFenceMarker (line : String) : Bool :=
  "```".data.isPrefixOf (trimStartL line.data)

theorem length_dropWhile_le (p : Char → Bool) (l : Chars) :
    (l.dropWhile p).length ≤ l.length := by
  induction l with
  | nil => simp
  | cons c rest ih =>
    rw [List.dropWhile_cons]
    by_cases h : p c = true
    · rw [if_pos h]
      simp only [List.length_cons]
      omega
    · rw [if_neg h]

theorem length_tail_le (l : Chars) : l.tail.length ≤ l.length := by
  cases l <;> simp

/-- One global pass of the inline-link regex over a single line:
each match `](target)` (target nonempty, free of `)`) is replaced by
`](transform target)`; scanning resumes after the match. -/
def lineReplaceLinks (f : String → String) : Chars → Chars
  | [] => []
  | c :: rest =>
    if c = ']' ∧ rest.head? = some '(' then
      let rest2 := rest.tail
      let tgt := rest2.takeWhile (fun ch => ch ≠ ')')
      let after := rest2.dropWhile (fun ch => ch ≠ ')')
      if tgt ≠ [] ∧ after.head? = some ')' then
        ']' :: '(' :: ((f tgt.asString).data ++ ')' :: lineReplaceLinks f after.tail)
      else
        c :: lineReplaceLinks f rest
    else
      c :: lineReplaceLinks f rest
termination_by l => l.length
decreasing_by
  · have h1 := length_tail_le (List.dropWhile (fun ch => ch ≠ ')') rest.tail)
    have h2 := length_dropWhile_le (fun ch => ch ≠ ')') rest.tail
    have h3 := length_tail_le rest
    simp only [List.length_cons]
    omega
  · simp
  · simp

/-- The stateful line loop of `rewriteMarkdownLinks`: a fence-marker line
toggles the flag and is returned as is; a line inside a fence is returned
as is; any other line gets the per-line link replacement. -/
def rmlGo (f : String → String) : Bool → List String → List String
  | _, [] => []
  | inFence, line :: rest =>
    if isFenceMarker line then
      line :: rmlGo f (!inFence) rest
    else if inFence then
      line :: rmlGo f inFence rest
    else
      (lineReplaceLinks f line.data).asString :: rmlGo f inFence rest

/-- `rewriteMarkdownLinks(content, transform)` of src/server.ts. -/
def rewriteMarkdownLinks (content : String) (f : String → String) : String :=
  joinLines (rmlGo f false (splitLines content))

/-- The fence flag after a prefix of lines, starting from `st`. -/
def fenceToggleFold (st : Bool) (lines : List String) : Bool :=
  lines.foldl (fun s l => if isFenceMarker l then !s else s) st

theorem lineReplaceLinks_id_aux (n : Nat) :
    ∀ l : Chars, l.length ≤ n → lineReplaceLinks (fun s => s) l = l := by
  induction n with
  | zero =>
    intro l hl
    have : l = [] := List.eq_nil_of_length_eq_zero (Nat.le_zero.mp hl)
    rw [this, lineReplaceLinks]
  | succ n ih =>
    intro l hl
    match l with
    | [] => rw [lineReplaceLinks]
    | c :: rest =>
      have hrest : rest.length ≤ n := by
        simp only [List.length_cons] at hl
        omega
      rw [lineReplaceLinks]
      by_cases hc : c = ']' ∧ rest.head? = some '('
      · rw [if_pos hc]
        simp only
        set rest2 := rest.tail with hrest2
        set tgt := rest2.takeWhile (fun ch => ch ≠ ')') with htgt
        set after := rest2.dropWhile (fun ch => ch ≠ ')') with hafter
        by_cases hm : tgt ≠ [] ∧ after.head? = some ')'
        · rw [if_pos hm]
          have hlen1 : after.tail.length ≤ after.length := length_tail_le after
          have hlen2 : after.length ≤ rest2.length :=
            length_dropWhile_le (fun ch => ch ≠ ')') rest2
          have hlen3 : rest2.length ≤ rest.length := length_tail_le rest
          have hrec : lineReplaceLinks (fun s => s) after.tail = after.tail := by
            apply ih
            omega
          rw [hrec]
          obtain ⟨hnd, hhd⟩ := hm
          have hafter_cons : after = ')' :: after.tail := by
            cases h : after with
            | nil => rw [h] at hhd; cases hhd
            | cons a as =>
              rw [h] at hhd
              simp only [List.head?] at hhd
              injection hhd with hh
              subst hh
              simp [h]
          have hsplit : tgt ++ after = rest2 :=
            List.takeWhile_append_dropWhile (fun ch => ch ≠ ')') rest2
          have hrest_eq : rest = '(' :: rest2 := by
            cases h : rest with
            | nil => rw [h] at hc; cases hc.2
            | cons a as =>
              obtain ⟨-, hh⟩ := hc
              rw [h] at hh
              simp only [List.head?] at hh
              injection hh with hh
              rw [hh, hrest2, h]
              rfl
          rw [hc.1, hrest_eq]
          have hdata : (List.asString tgt).data = tgt := rfl
          rw [hdata, ← hsplit, hafter_cons]
          simp
        · rw [if_neg hm, ih rest hrest]
      · rw [if_neg hc, ih rest hrest]

theorem lineReplaceLinks_id (l : Chars) : lineReplaceLinks (fun s => s) l = l :=
  lineReplaceLinks_id_aux l.length l (Nat.le_refl _)

theorem rmlGo_id (st : Bool) (lines : List String) :
    rmlGo (fun s => s) st lines = lines := by
  induction lines generalizing st with
  | nil => rw [rmlGo]
  | cons line rest ih =>
    rw [rmlGo]
    by_cases h1 : isFenceMarker line = true
    · rw [if_pos h1, ih]
    · rw [if_neg h1]
      by_cases h2 : st = true
      · rw [if_pos h2, ih]
      · rw [if_neg h2, lineReplaceLinks_id, ih]
        have : (List.asString line.data) = line := by cases line; rfl
        rw [this]

/-! ### Deterministic matchers for the two table regexes of applyStacks -/

def dropPrefixL (pre s : Chars) : Option Chars :=
  if pre.isPrefixOf s then some (s.drop pre.length) else none

/-- Matches `\r?\n` at the head, returning the rest. -/
def dropNewline? : Chars → Option Chars
  | [] => none
  | c :: r =>
    if c = '\n' then some r
    else if c = '\r' then
      match r with
      | [] => none
      | c2 :: r2 => if c2 = '\n' then some r2 else none
    else none

theorem dropNewline?_length (s s1 : Chars) (h : dropNewline? s = some s1) :
    s1.length < s.length := by
  cases s with
  | nil => simp [dropNewline?] at h
  | cons c r =>
    rw [dropNewline?.eq_def] at h
    simp only at h
    by_cases h1 : c = '\n'
    · rw [if_pos h1] at h
      injection h with h
      rw [← h]
      simp
    · rw [if_neg h1] at h
      by_cases h2 : c = '\r'
      · rw [if_pos h2] at h
        cases r with
        | nil => cases h
        | cons c2 r2 =>
          simp only at h
          by_cases h3 : c2 = '\n'
          · rw [if_pos h3] at h
            injection h with h
            rw [← h]
            simp only [List.length_cons]
            omega
          · rw [if_neg h3] at h
            cases h
      · rw [if_neg h2] at h
        cases h

def nonNewline (c : Char) : Bool := !(c = '\r' || c = '\n')

def isTableDashPipe (c : Char) : Bool := c = '-' || c = '|'

/-- Index of the first `'|'`, or the length when absent. -/
def idxOfPipe : Chars → Nat
  | [] => 0
  | c :: r => if c = '|' then 0 else idxOfPipe r + 1

/-- Offset of the last `'|'` from the end (0 when the list ends with it);
equals the length when no pipe occurs. -/
def pipeIdxFromEnd (l : Chars) : Nat := idxOfPipe l.reverse

/-- Matches `\|[-|]+\|` followed (enforced by the caller) by a newline: the
closing pipe is forced to be the last char of the dash-pipe run. -/
def sepRowConsume (s : Chars) : Option Nat :=
  match s with
  | '|' :: rest =>
    let R := rest.takeWhile isTableDashPipe
    if 2 ≤ R.length ∧ R.getLast? = some '|' then some (1 + R.length) else none
  | _ => none

/-- Matches `[^\r\n]*\|` when a newline must follow: the closing pipe must
end the line run. Returns the consumed length. -/
def tableRowTail (s : Chars) : Option Nat :=
  let N := s.takeWhile nonNewline
  if N.getLast? = some '|' then some N.length else none

/-- Greedy matcher for `(?:\r?\n\|[^\r\n]*\|)+`: rows are consumed while
each full line ends with a pipe; the final row may instead stop at the
last pipe inside its line. Returns the consumed length. -/
def rowsConsume (s : Chars) : Option Nat :=
  match hnl : dropNewline? s with
  | none => none
  | some s1 =>
    match hs1 : s1 with
    | '|' :: rest =>
      let N := rest.takeWhile nonNewline
      if N.getLast? = some '|' then
        match rowsConsume (rest.drop N.length) with
        | some more => some ((s.length - rest.length) + N.length + more)
        | none => some ((s.length - rest.length) + N.length)
      else if pipeIdxFromEnd N < N.length then
        some ((s.length - rest.length) + (N.length - pipeIdxFromEnd N))
      else none
    | _ => none
termination_by s.length
decreasing_by
  · have h1 := dropNewline?_length s ('|' :: rest) hnl
    have h2 : (rest.drop (rest.takeWhile nonNewline).length).length ≤ rest.length := by
      rw [List.length_drop]
      omega
    simp only [List.length_cons] at h1
    omega

/-- Deterministic equivalent of the `legacyTableRegex` of applyStacks:
`\| Layer \| Stack \|\r?\n\|[-|]+\|\r?\n\| Backend \|[^\r\n]*\|\r?\n\| Frontend \|[^\r\n]*\|\r?\n\| Infra \|[^\r\n]*\|`. -/
def legacyMatch (s : Chars) : Option Nat := do
  let s1 ← dropPrefixL "| Layer | Stack |".data s
  let s2 ← dropNewline? s1
  let n3 ← sepRowConsume s2
  let s4 ← dropNewline? (s2.drop n3)
  let s5 ← dropPrefixL "| Backend |".data s4
  let n5 ← tableRowTail s5
  let s7 ← dropNewline? (s5.drop n5)
  let s8 ← dropPrefixL "| Frontend |".data s7
  let n8 ← tableRowTail s8
  let s10 ← dropNewline? (s8.drop n8)
  let s11 ← dropPrefixL "| Infra |".data s10
  let N := s11.takeWhile nonNewline
  if pipeIdxFromEnd N < N.length then
    some (s.length - s11.length + (N.length - pipeIdxFromEnd N))
  else none

/-- Deterministic equivalent of the `generatedTableRegex` of applyStacks:
`\| Stack \| Languages \| Frameworks \|\r?\n\|[-|]+\|(?:\r?\n\|[^\r\n]*\|)+`. -/
def generatedMatch (s : Chars) : Option Nat := do
  let s1 ← dropPrefixL "| Stack | Languages | Frameworks |".data s
  let s2 ← dropNewline? s1
  let n3 ← sepRowConsume s2
  let more ← rowsConsume (s2.drop n3)
  some (s.length - (s2.drop n3).length + more)

/-! ### Stack definitions and the placeholder applier (applyStacks) -/

/-- One detected or supplied technology stack (interface StackDefinition). -/
structure StackDefinition where
  name : String
  languages : List String
  frameworks : List String
  testRunner : Option String := none
  typeChecker : Option String := none
  linter : Option String := none
  packageManager : Option String := none
  path : Option String := none
deriving DecidableEq, Repr

/-- `[...new Set(l)]`: deduplication keeping first occurrences. -/
def dedupFirstAux : List String → List String → List String
  | [], _ => []
  | x :: xs, seen =>
    if x ∈ seen then dedupFirstAux xs seen else x :: dedupFirstAux xs (x :: seen)

def dedupFirst (l : List String) : List String := dedupFirstAux l []

/-- `.filter(Boolean)` over possibly-missing strings: drops `undefined`
and the falsy empty string. -/
def filterTruthy (l : List (Option String)) : List String :=
  (l.filterMap id).filter (fun s => s ≠ "")

def testRunnersOf (sts : List StackDefinition) : List String :=
  filterTruthy (sts.map StackDefinition.testRunner)

def typeCheckersOf (sts : List StackDefinition) : List String :=
  filterTruthy (sts.map StackDefinition.typeChecker)

def lintersOf (sts : List StackDefinition) : List String :=
  filterTruthy (sts.map StackDefinition.linter)

def packageManagersOf (sts : List StackDefinition) : List String :=
  dedupFirst (filterTruthy (sts.map StackDefinition.packageManager))

/-- JS `x || token`: the empty string falls back to the placeholder. -/
def orElseToken (s token : String) : String := if s = "" then token else s

def stackRowOf (stack : StackDefinition) : String :=
  "| " ++ stack.name ++
    (match stack.path with
     | some p => " (`" ++ p ++ "`)"
     | none => "") ++
    " | " ++ String.intercalate ", " stack.languages ++ " | " ++
    String.intercalate ", " stack.frameworks ++ " |"

def stackTableOf (sts : List StackDefinition) : String :=
  "| Stack | Languages | Frameworks |\n|-------|-----------|------------|\n" ++
    String.intercalate "\n" (sts.map stackRowOf)

/-- `testRunners[0] ? testRunners[0] + " \x7bpath\x7d" : "\x7btargeted test command\x7d"`. -/
def targetedTestValue (sts : List StackDefinition) : String :=
  match (testRunnersOf sts).head? with
  | some t => if t = "" then "\x7btargeted test command\x7d" else t ++ " \x7bpath\x7d"
  | none => "\x7btargeted test command\x7d"

/-- The five placeholder replacements, in object insertion order. -/
def replacementsOf (sts : List StackDefinition) : List (String × String) :=
  [("\x7btypecheck command\x7d",
     orElseToken (String.intercalate " && " (typeCheckersOf sts)) "\x7btypecheck command\x7d"),
   ("\x7blint command\x7d",
     orElseToken (String.intercalate " && " (lintersOf sts)) "\x7blint command\x7d"),
   ("\x7btest command\x7d",
     orElseToken (String.intercalate " && " (testRunnersOf sts)) "\x7btest command\x7d"),
   ("\x7btargeted test command\x7d", targetedTestValue sts),
   ("\x7binstall command\x7d",
     orElseToken
       (String.intercalate " && " ((packageManagersOf sts).map (fun pm => pm ++ " install")))
       "\x7binstall command\x7d")]

/-- `applyStacks(content, sts)` of src/init.ts: no-op on an empty stack
list; otherwise replace either legacy or generated table wholesale by the
fresh stack table, then apply the five token replacements in order. -/
def applyStacks (content : String) (sts : List StackDefinition) : String :=
  if sts.isEmpty then content
  else
    let table := (stackTableOf sts).data
    let afterLegacy := replaceFirstWith legacyMatch table content.data
    let afterTables := replaceFirstWith generatedMatch table afterLegacy
    ((replacementsOf sts).foldl
      (fun acc pv => replaceAllL pv.1.data pv.2.data acc) afterTables).asString

/-! ### Filesystem model -/

structure DirEntry where
  name : String
  isDir : Bool
deriving DecidableEq, Repr

/-- The local filesystem: a total file map, a directory set, and a
directory-listing oracle for `readdirSync`. -/
@[ext] structure Fs where
  files : String → Option String
  dirs : String → Bool
  entries : String → List DirEntry

/-- `JSON.parse` for package.json files, as an abstract parameter (records
become association lists; a parse failure is `none`). -/
structure PackageJson where
  dependencies : Option (List (String × String)) := none
  devDependencies : Option (List (String × String)) := none
  scripts : Option (List (String × String)) := none
deriving DecidableEq, Repr

structure Env where
  jsonParse : String → Option PackageJson

/-- `path.join root rel` for the normalized relative paths the engine
uses; Node returns `root` itself when `rel` is empty. -/
def joinPath (a b : String) : String := if b = "" then a else a ++ "/" ++ b

def writeFileFs (fs : Fs) (p c : String) : Fs :=
  { fs with files := fun q => if q = p then some c else fs.files q }

def splitSlash (p : String) : List String := (p.data.splitOn '/').map List.asString

/-- The chain of ancestor directories created by
`mkdirSync(dirname(p), recursive)`. -/
def parentPaths (p : String) : List String :=
  let parts := splitSlash p
  (List.range (parts.length - 1)).map
    (fun k => String.intercalate "/" (parts.take (k + 1)))

def mkdirp (fs : Fs) (filePath : String) : Fs :=
  { fs with dirs := fun q => fs.dirs q || (parentPaths filePath).contains q }

/-! ### Output writer (writeOutput of src/init.ts) -/

inductive WriteStatus
  | skipped
  | wouldOverwrite
  | wouldCreate
  | overwritten
  | created
deriving DecidableEq, Repr

structure WriteOutputResult where
  path : String
  status : WriteStatus
deriving DecidableEq, Repr

/-- Resolved options (the defaults of the JS optional fields are applied
at the call boundary). -/
structure InitOptions where
  dryRun : Bool
  overwrite : Bool
deriving DecidableEq, Repr

/-- Caller-side options record with optional fields. -/
structure InitOptionsIn where
  dryRun : Option Bool := none
  overwrite : Option Bool := none
deriving DecidableEq, Repr

/-- `writeOutput(projectPath, relativePath, content, options)`. -/
def writeOutput (fs : Fs) (projectPath relativePath content : String)
    (options : InitOptions) : Fs × WriteOutputResult :=
  let fullPath := joinPath projectPath relativePath
  let alreadyExists := (fs.files fullPath).isSome
  if alreadyExists && !options.overwrite then
    (fs, ⟨relativePath, .skipped⟩)
  else
    let fs2 := if options.dryRun then fs else writeFileFs (mkdirp fs fullPath) fullPath content
    if options.dryRun then
      (fs2, ⟨relativePath, if alreadyExists then .wouldOverwrite else .wouldCreate⟩)
    else
      (fs2, ⟨relativePath, if alreadyExists then .overwritten else .created⟩)

def formatWriteResult (r : WriteOutputResult) : String :=
  match r.status with
  | .skipped => r.path ++ " (skipped: exists)"
  | .wouldOverwrite => r.path ++ " (dry-run)"
  | .wouldCreate => r.path ++ " (dry-run)"
  | .overwritten => r.path
  | .created => r.path

/-! ### Front matter rendering -/

inductive FmValue
  | str (s : String)
  | bool (b : Bool)
  | arr (items : List String)
deriving DecidableEq, Repr

def fmLines : String × FmValue → List String
  | (k, .arr items) => (k ++ ":") :: items.map (fun item => "  - \"" ++ item ++ "\"")
  | (k, .bool b) => [k ++ ": " ++ (if b then "true" else "false")]
  | (k, .str v) => [k ++ ": \"" ++ v ++ "\""]

def yamlFrontmatter (fields : List (String × FmValue)) : String :=
  String.intercalate "\n" (["---"] ++ (fields.map fmLines).flatten ++ ["---"])

/-! ### Stack detector (detectStacks of src/init.ts) -/

def readJsonSafe (env : Env) (fs : Fs) (path : String) : Option PackageJson :=
  match fs.files path with
  | none => none
  | some raw => env.jsonParse raw

def detectPackageManager (fs : Fs) (dirPath : String) : String :=
  if (fs.files (joinPath dirPath "pnpm-lock.yaml")).isSome then "pnpm"
  else if (fs.files (joinPath dirPath "yarn.lock")).isSome then "yarn"
  else if (fs.files (joinPath dirPath "package-lock.json")).isSome then "npm"
  else if (fs.files (joinPath dirPath "uv.lock")).isSome then "uv"
  else "npm"

def runCommandPrefix (packageManager : String) : String :=
  if packageManager = "npm" then "npm run"
  else if packageManager = "pnpm" then "pnpm"
  else if packageManager = "yarn" then "yarn"
  else packageManager ++ " run"

def recLookup (r : Option (List (String × String))) (k : String) : Option String :=
  (r.getD []).lookup k

/-- JS string truthiness: present and nonempty. -/
def truthy : Option String → Bool
  | none => false
  | some s => s ≠ ""

/-- Lookup in the spread-merge of dependencies and devDependencies
(devDependencies override). -/
def depLookup (pkg : PackageJson) (k : String) : Option String :=
  match recLookup pkg.devDependencies k with
  | some v => some v
  | none => recLookup pkg.dependencies k

def knownNodeFrameworks : List (String × String) :=
  [("next", "Next.js"), ("react", "React"), ("vite", "Vite"), ("vue", "Vue"),
   ("svelte", "Svelte"), ("tailwindcss", "TailwindCSS"), ("express", "Express"),
   ("fastify", "Fastify"), ("@nestjs/core", "NestJS"),
   ("@modelcontextprotocol/sdk", "MCP SDK"),
   ("@tanstack/react-query", "TanStack Query"), ("zustand", "Zustand")]

def detectNodeFrameworks (pkg : PackageJson) : List String :=
  knownNodeFrameworks.filterMap
    (fun dn => if truthy (depLookup pkg dn.1) then some dn.2 else none)

/-- `posix.basename` restricted to forward-slash paths. -/
def posixBasename (p : String) : String :=
  ((splitSlash p).filter (fun seg => seg ≠ "")).getLastD ""

def detectNodeStack (env : Env) (fs : Fs) (projectPath relativePath : String) :
    Option StackDefinition :=
  let stackRoot := joinPath projectPath relativePath
  let pkgPath := joinPath stackRoot "package.json"
  if (fs.files pkgPath).isNone then none
  else
    let pkg := (readJsonSafe env fs pkgPath).getD {}
    let packageManager := detectPackageManager fs stackRoot
    let runPrefix := runCommandPrefix packageManager
    let frameworks := detectNodeFrameworks pkg
    let usesTypeScript :=
      truthy (depLookup pkg "typescript") || (fs.files (joinPath stackRoot "tsconfig.json")).isSome
    some
      { name := if relativePath = "" then "app" else posixBasename relativePath
        languages := if usesTypeScript then ["TypeScript", "JavaScript"] else ["JavaScript"]
        frameworks := if frameworks.length > 0 then frameworks else ["Node.js"]
        testRunner :=
          if truthy (recLookup pkg.scripts "test") then some (runPrefix ++ " test") else none
        typeChecker :=
          if truthy (recLookup pkg.scripts "typecheck") then some (runPrefix ++ " typecheck")
          else if usesTypeScript then some "tsc --noEmit" else none
        linter :=
          if truthy (recLookup pkg.scripts "lint") then some (runPrefix ++ " lint") else none
        packageManager := some packageManager
        path := if relativePath = "" then none else some relativePath }

def strToLower (s : String) : String := (s.data.map Char.toLower).asString

def strContains (hay sub : String) : Bool := occursL sub.data hay.data

def pythonFrameworkKeys : List (String × String) :=
  [("fastapi", "FastAPI"), ("django", "Django"), ("flask", "Flask"),
   ("langgraph", "LangGraph"), ("pydantic", "Pydantic")]

def detectPythonStack (fs : Fs) (projectPath relativePath : String) :
    Option StackDefinition :=
  let stackRoot := joinPath projectPath relativePath
  let pyprojectPath := joinPath stackRoot "pyproject.toml"
  let requirementsPath := joinPath stackRoot "requirements.txt"
  if (fs.files pyprojectPath).isNone && (fs.files requirementsPath).isNone then none
  else
    let pyproject :=
      match fs.files pyprojectPath with
      | some raw => strToLower raw
      | none => ""
    let reqs :=
      match fs.files requirementsPath with
      | some raw => strToLower raw
      | none => ""
    let merged := pyproject ++ "\n" ++ reqs
    let frameworks := pythonFrameworkKeys.filterMap
      (fun kn => if strContains merged kn.1 then some kn.2 else none)
    some
      { name := if relativePath = "" then "app" else posixBasename relativePath
        languages := ["Python"]
        frameworks := if frameworks.length > 0 then frameworks else ["Python"]
        testRunner := if strContains merged "pytest" then some "pytest" else none
        typeChecker :=
          if strContains merged "pyright" then some "pyright"
          else if strContains merged "mypy" then some "mypy" else none
        linter := if strContains merged "ruff" then some "ruff check ." else none
        path := if relativePath = "" then none else some relativePath }

def startsWithDot (s : String) : Bool := s.data.head? = some '.'

/-- Candidate stack roots: the project root plus the immediate non-hidden,
non-node_modules subdirectories, in listing order. -/
def candidateDirs (fs : Fs) (root : String) : List String :=
  "" :: ((fs.entries root).filter
    (fun e => e.isDir && !startsWithDot e.name && e.name != "node_modules")).map DirEntry.name

def stackKey (stack : StackDefinition) : String :=
  stack.name ++ ":" ++ stack.path.getD "" ++ ":" ++ String.intercalate "," stack.languages

def dedupStacksAux : List StackDefinition → List String → List StackDefinition
  | [], _ => []
  | stack :: rest, seen =>
    if stackKey stack ∈ seen then dedupStacksAux rest seen
    else stack :: dedupStacksAux rest (stackKey stack :: seen)

/-- `detectStacks(projectPath)` of src/init.ts. -/
def detectStacks (env : Env) (fs : Fs) (projectPath : String) : List StackDefinition :=
  let root := projectPath
  let collected := (candidateDirs fs root).foldl
    (fun acc rel =>
      acc ++ (detectNodeStack env fs root rel).toList ++ (detectPythonStack fs root rel).toList)
    []
  let deduped := dedupStacksAux collected []
  if deduped.isEmpty then
    [{ name := "app", languages := ["Unknown"], frameworks := ["Unknown"] }]
  else deduped

/-! ### Static tables: source files, wrapper files, platform configs -/

def SOURCE_FILES : List (String × String) :=
  [("reasoning-kernel", ".agent-loop/reasoning-kernel.md"),
   ("feedback", ".agent-loop/feedback.md"),
   ("validate-env", ".agent-loop/validate-env.md"),
   ("validate-n", ".agent-loop/validate-n.md"),
   ("patterns", ".agent-loop/patterns.md"),
   ("glossary", ".agent-loop/glossary.md"),
   ("code-patterns", ".agent-loop/patterns/code-patterns.md"),
   ("testing-guide", ".agent-loop/patterns/testing-guide.md"),
   ("refactoring-workflow", ".agent-loop/patterns/refactoring-workflow.md"),
   ("api-standards", ".agent-loop/patterns/api-standards.md")]

def WRAPPER_FILES : List (String × String) :=
  [("reasoning-kernel", "wiring/reasoning-kernel.md"),
   ("feedback", "wiring/feedback.md"),
   ("validate-env", "wiring/validate-env.md"),
   ("validate-n", "wiring/validate-n.md"),
   ("patterns", "wiring/patterns.md"),
   ("glossary", "wiring/glossary.md"),
   ("code-patterns", "wiring/code-patterns.md"),
   ("testing-guide", "wiring/testing-guide.md"),
   ("refactoring-workflow", "wiring/refactoring-workflow.md"),
   ("api-standards", "wiring/api-standards.md")]

structure PlatformFileConfig where
  target : String
  fm : List (String × FmValue)
deriving DecidableEq, Repr

def COPILOT : List (String × PlatformFileConfig) :=
  [("reasoning-kernel", ⟨".github/instructions/reasoning-kernel.instructions.md",
     [("name", .str "SyncLoop: Reasoning Kernel"),
      ("description", .str "7-stage agent reasoning loop with context clearage"),
      ("applyTo", .str "**/*")]⟩),
   ("feedback", ⟨".github/instructions/feedback.instructions.md",
     [("name", .str "SyncLoop: Feedback Loop"),
      ("description", .str "Failure diagnosis, patch protocol, branch pruning"),
      ("applyTo", .str "**/*")]⟩),
   ("validate-env", ⟨".github/instructions/validate-env.instructions.md",
     [("name", .str "SyncLoop: Validate Environment"),
      ("description", .str "NFR gates: types, tests, layers, complexity"),
      ("applyTo", .str "**/*")]⟩),
   ("validate-n", ⟨".github/instructions/validate-n.instructions.md",
     [("name", .str "SyncLoop: Validate Neighbors"),
      ("description", .str "Shape, boundary, bridge checks"),
      ("applyTo", .str "**/*")]⟩),
   ("patterns", ⟨".github/instructions/patterns.instructions.md",
     [("name", .str "SyncLoop: Pattern Registry"),
      ("description", .str "Pattern routing and learned patterns"),
      ("applyTo", .str "**/*")]⟩),
   ("glossary", ⟨".github/instructions/glossary.instructions.md",
     [("name", .str "SyncLoop: Glossary"),
      ("description", .str "Canonical terminology"),
      ("applyTo", .str "**/*")]⟩),
   ("code-patterns", ⟨".github/instructions/code-patterns.instructions.md",
     [("name", .str "SyncLoop: Code Patterns"),
      ("description", .str "P1-P11 implementation patterns"),
      ("applyTo", .str "\x7bsrc,app,lib\x7d/**/*.\x7bts,py,js,jsx,tsx\x7d")]⟩),
   ("testing-guide", ⟨".github/instructions/testing-guide.instructions.md",
     [("name", .str "SyncLoop: Testing Guide"),
      ("description", .str "Test patterns and strategies"),
      ("applyTo", .str "\x7btests,test,__tests__\x7d/**/*")]⟩),
   ("refactoring-workflow", ⟨".github/instructions/refactoring-workflow.instructions.md",
     [("name", .str "SyncLoop: Refactoring Workflow"),
      ("description", .str "4-phase refactoring checklist"),
      ("applyTo", .str "**/*")]⟩),
   ("api-standards", ⟨".github/instructions/api-standards.instructions.md",
     [("name", .str "SyncLoop: API Standards"),
      ("description", .str "Boundary contracts and API conventions"),
      ("applyTo", .str "\x7broutes,routers,controllers,api\x7d/**/*")]⟩)]

def CURSOR : List (String × PlatformFileConfig) :=
  [("reasoning-kernel", ⟨".cursor/rules/01-reasoning-kernel.md",
     [("description", .str "7-stage agent reasoning loop with context clearage and transitions"),
      ("alwaysApply", .bool true)]⟩),
   ("feedback", ⟨".cursor/rules/02-feedback.md",
     [("description", .str "Failure diagnosis, patch protocol, micro-loop, branch pruning"),
      ("alwaysApply", .bool true)]⟩),
   ("validate-env", ⟨".cursor/rules/03-validate-env.md",
     [("description", .str "Stage 1 NFR gates: types, tests, layers, complexity, debug hygiene"),
      ("alwaysApply", .bool true)]⟩),
   ("validate-n", ⟨".cursor/rules/04-validate-n.md",
     [("description", .str "Stage 2 checks: shapes, boundaries, bridges"),
      ("alwaysApply", .bool true)]⟩),
   ("patterns", ⟨".cursor/rules/05-patterns.md",
     [("description", .str "Pattern routing index and learned patterns"),
      ("alwaysApply", .bool true)]⟩),
   ("glossary", ⟨".cursor/rules/06-glossary.md",
     [("description", .str "Canonical domain terminology and naming rules"),
      ("alwaysApply", .bool true)]⟩),
   ("code-patterns", ⟨".cursor/rules/07-code-patterns.md",
     [("description", .str "P1-P11 implementation patterns for layered code"),
      ("globs", .str "\x7bsrc,app,lib\x7d/**/*.\x7bts,py,js,jsx,tsx\x7d")]⟩),
   ("testing-guide", ⟨".cursor/rules/08-testing-guide.md",
     [("description", .str "Test patterns, fixtures, mocks, strategies"),
      ("globs", .str "\x7btests,test,__tests__\x7d/**/*")]⟩),
   ("refactoring-workflow", ⟨".cursor/rules/09-refactoring-workflow.md",
     [("description", .str "4-phase refactoring checklist for safe restructuring"),
      ("alwaysApply", .bool false)]⟩),
   ("api-standards", ⟨".cursor/rules/10-api-standards.md",
     [("description", .str "Boundary contracts, typed models, error envelopes"),
      ("globs", .str "\x7broutes,routers,controllers,api\x7d/**/*")]⟩)]

def CLAUDE : List (String × PlatformFileConfig) :=
  [("reasoning-kernel", ⟨".claude/rules/reasoning-kernel.md", [("paths", .arr ["**/*"])]⟩),
   ("feedback", ⟨".claude/rules/feedback.md", [("paths", .arr ["**/*"])]⟩),
   ("validate-env", ⟨".claude/rules/validate-env.md", [("paths", .arr ["**/*"])]⟩),
   ("validate-n", ⟨".claude/rules/validate-n.md", [("paths", .arr ["**/*"])]⟩),
   ("patterns", ⟨".claude/rules/patterns.md", [("paths", .arr ["**/*"])]⟩),
   ("glossary", ⟨".claude/rules/glossary.md", [("paths", .arr ["**/*"])]⟩),
   ("code-patterns", ⟨".claude/rules/code-patterns.md",
     [("paths", .arr ["src/**", "app/**", "lib/**"])]⟩),
   ("testing-guide", ⟨".claude/rules/testing-guide.md",
     [("paths", .arr ["tests/**", "test/**", "__tests__/**"])]⟩),
   ("refactoring-workflow", ⟨".claude/rules/refactoring-workflow.md", [("paths", .arr ["**/*"])]⟩),
   ("api-standards", ⟨".claude/rules/api-standards.md",
     [("paths", .arr ["**/routes/**", "**/api/**", "**/controllers/**"])]⟩)]

def CODEX : List (String × PlatformFileConfig) := []

def platformConfigOf (platform : String) : List (String × PlatformFileConfig) :=
  if platform = "copilot" then COPILOT
  else if platform = "cursor" then CURSOR
  else if platform = "claude" then CLAUDE
  else if platform = "codex" then CODEX
  else []

/-! ### Template tree -/

/-- The compiled-in template directory: the reader for individual template
files and the file tree below `template/.agent-loop` used by the recursive
copy. -/
structure Template where
  read : String → String
  agentLoopTree : List (String × String)

/-! ### Platform generator (generatePlatformFiles of src/init.ts) -/

def pushWrite (st : Fs × List String) (projectPath rel content : String)
    (options : InitOptions) : Fs × List String :=
  let pr := writeOutput st.1 projectPath rel content options
  (pr.1, st.2 ++ ["  " ++ formatWriteResult pr.2])

/-- The per-document loop body of generatePlatformFiles. -/
def genLoopStep (tmpl : Template) (projectPath platform : String)
    (sts : List StackDefinition) (options : InitOptions)
    (st : Fs × List String) (source : String × String) : Fs × List String :=
  match (platformConfigOf platform).lookup source.1 with
  | none => st
  | some entry =>
    match WRAPPER_FILES.lookup source.1 with
    | none => st
    | some wrapperPath =>
      let content := applyStacks (tmpl.read wrapperPath) sts
      let frontmatter := yamlFrontmatter entry.fm
      pushWrite st projectPath entry.target (frontmatter ++ "\n\n" ++ content) options

def generatePlatformFiles (tmpl : Template) (fs : Fs) (projectPath platform : String)
    (sts : List StackDefinition) (options : InitOptions) : Fs × List String :=
  let st0 := SOURCE_FILES.foldl (genLoopStep tmpl projectPath platform sts options)
    (fs, ([] : List String))
  let summary := tmpl.read "protocol-summary.md"
  if platform = "copilot" then
    let st1 := pushWrite st0 projectPath ".github/copilot-instructions.md" summary options
    let st2 := pushWrite st1 projectPath ".github/agents/SyncLoop.agent.md"
      (applyStacks (tmpl.read "wiring/agents-github.md") sts) options
    let st3 := pushWrite st2 projectPath ".github/agents/SyncLoop-Architect.agent.md"
      (applyStacks (tmpl.read "wiring/agents-github-architect.md") sts) options
    let st4 := pushWrite st3 projectPath ".github/agents/SyncLoop-Fixer.agent.md"
      (applyStacks (tmpl.read "wiring/agents-github-fixer.md") sts) options
    pushWrite st4 projectPath ".github/skills/diagnose-failure/SKILL.md"
      (applyStacks (tmpl.read "wiring/skills-diagnose-failure.md") sts) options
  else if platform = "cursor" then
    let fmS := yamlFrontmatter
      [("description", .str "SyncLoop protocol summary and guardrails"), ("alwaysApply", .bool true)]
    let st1 := pushWrite st0 projectPath ".cursor/rules/00-protocol.md"
      (fmS ++ "\n\n" ++ summary) options
    pushWrite st1 projectPath ".cursor/skills/diagnose-failure/SKILL.md"
      (applyStacks (tmpl.read "wiring/skills-diagnose-failure.md") sts) options
  else if platform = "claude" then
    let st1 := pushWrite st0 projectPath "CLAUDE.md" summary options
    let st2 := pushWrite st1 projectPath ".claude/agents/SyncLoop.md"
      (applyStacks (tmpl.read "wiring/agents-claude.md") sts) options
    let st3 := pushWrite st2 projectPath ".claude/agents/SyncLoop-Architect.md"
      (applyStacks (tmpl.read "wiring/agents-claude-architect.md") sts) options
    let st4 := pushWrite st3 projectPath ".claude/agents/SyncLoop-Fixer.md"
      (applyStacks (tmpl.read "wiring/agents-claude-fixer.md") sts) options
    pushWrite st4 projectPath ".claude/skills/diagnose-failure/SKILL.md"
      (applyStacks (tmpl.read "wiring/skills-diagnose-failure.md") sts) options
  else if platform = "codex" then
    let st1 := pushWrite st0 projectPath "CODEX.md" summary options
    let st2 := pushWrite st1 projectPath ".agents/skills/diagnose-failure/SKILL.md"
      (applyStacks (tmpl.read "wiring/skills-diagnose-failure.md") sts) options
    let st3 := pushWrite st2 projectPath ".codex/config.toml"
      (tmpl.read "wiring/codex-config.toml") options
    let st4 := pushWrite st3 projectPath ".codex/agents/default.toml"
      (tmpl.read "wiring/codex-agent-default.toml") options
    let st5 := pushWrite st4 projectPath ".codex/agents/architect.toml"
      (tmpl.read "wiring/codex-agent-architect.toml") options
    pushWrite st5 projectPath ".codex/agents/fixer.toml"
      (tmpl.read "wiring/codex-agent-fixer.toml") options
  else st0

/-! ### Init orchestrator (parseTarget and init of src/init.ts) -/

/-- The runtime value of the `target` argument: a single platform id
string (including the sentinel "all") or a list of platform ids. -/
inductive InitTarget
  | str (s : String)
  | list (l : List String)
deriving DecidableEq, Repr

def ALL_PLATFORMS : List String := ["copilot", "cursor", "claude", "codex"]

def unknownTargetMsg (t : String) : String :=
  "Unknown target \"" ++ t ++ "\". Use one of: " ++
    String.intercalate ", " (ALL_PLATFORMS ++ ["all"])

/-- The eager target validation of init: `none` means valid, `some e`
means the error thrown. -/
def validateTarget : InitTarget → Option String
  | .str s =>
    if s != "all" && !ALL_PLATFORMS.contains s then some (unknownTargetMsg s) else none
  | .list l =>
    l.findSome? (fun t => if ALL_PLATFORMS.contains t then none else some (unknownTargetMsg t))

def expandTargets : InitTarget → List String
  | .str s => if s = "all" then ALL_PLATFORMS else [s]
  | .list l => l

def splitComma (s : String) : List String := (s.data.splitOn ',').map List.asString

/-- `parseTarget(value)` of src/init.ts. -/
def parseTarget (value : String) : InitTarget :=
  if value = "all" then .str "all"
  else
    let parts := dedupFirst (((splitComma value).map trimStr).filter (fun t => t ≠ ""))
    match parts with
    | [p] => .str p
    | ps => .list ps

/-- `cpSync(TEMPLATE_DIR/.agent-loop, root/.agent-loop, recursive, force,
errorOnExist false)`: with `force` every template file overwrites the
destination; without it pre-existing destination files are kept. -/
def cpStep (root : String) (force : Bool) (acc : Fs) (pc : String × String) : Fs :=
  let dest := joinPath root (".agent-loop/" ++ pc.1)
  if !force && (acc.files dest).isSome then acc
  else writeFileFs (mkdirp acc dest) dest pc.2

def cpSyncAgentLoop (tmpl : Template) (fs : Fs) (root : String) (force : Bool) : Fs :=
  tmpl.agentLoopTree.foldl (cpStep root force) fs

/-- The in-place stack substitution over the copied canonical documents;
a file missing after the copy is skipped silently. -/
def substStep (root : String) (sts : List StackDefinition) (overwrite : Bool)
    (acc : Fs) (source : String × String) : Fs :=
  let destFile := joinPath root source.2
  if !overwrite && (acc.files destFile).isSome then acc
  else
    match acc.files destFile with
    | none => acc
    | some current =>
      let updated := applyStacks current sts
      if updated ≠ current then writeFileFs acc destFile updated else acc

def substituteCanonical (fs : Fs) (root : String) (sts : List StackDefinition)
    (overwrite : Bool) : Fs :=
  SOURCE_FILES.foldl (substStep root sts overwrite) fs

/-- The aggregate return value of one init run (`stackList` is the
`stacks` field of the JS record, renamed because `stacks` is reserved
here). -/
structure InitResultT where
  projectPath : String
  target : InitTarget
  dryRun : Bool
  overwrite : Bool
  stackList : List StackDefinition
  results : List String

/-- The per-platform loop body of init (step 7 of the orchestration). -/
def genTargetsStep (tmpl : Template) (root : String) (sts : List StackDefinition)
    (merged : InitOptions) (st : Fs × List String) (t : String) : Fs × List String :=
  let pr := generatePlatformFiles tmpl st.1 root t sts merged
  (pr.1, st.2 ++ (("\n[" ++ t ++ "]") :: pr.2))

/-- `init(projectPath, target, stacks, options)` of src/init.ts. The
returned filesystem is the state at normal return or at the throw point;
the `Except` carries the thrown validation error. -/
def init (env : Env) (tmpl : Template) (fs : Fs) (projectPath : String)
    (target : InitTarget) (sts : List StackDefinition) (options : InitOptionsIn) :
    Fs × Except String InitResultT :=
  let root := projectPath
  let effectiveStacks := if sts.length > 0 then sts else detectStacks env fs root
  let merged : InitOptions := ⟨options.dryRun.getD false, options.overwrite.getD true⟩
  match validateTarget target with
  | some err => (fs, Except.error err)
  | none =>
    let fs1 :=
      if merged.dryRun then fs
      else
        let fsc := cpSyncAgentLoop tmpl fs root merged.overwrite
        if effectiveStacks.length > 0 then
          substituteCanonical fsc root effectiveStacks merged.overwrite
        else fsc
    let results0 :=
      [".agent-loop/ (canonical source" ++ (if merged.dryRun then ", dry-run" else "") ++ ")"]
    let agentsContent := applyStacks (tmpl.read "AGENTS.md") effectiveStacks
    let pr1 := writeOutput fs1 root "AGENTS.md" agentsContent merged
    let results1 := results0 ++
      ["AGENTS.md (cross-platform entrypoint: " ++ formatWriteResult pr1.2 ++ ")"]
    let pr2 := writeOutput pr1.1 root "docs/backlog/index.md"
      (tmpl.read "backlog-index.md") ⟨merged.dryRun, false⟩
    let results2 := results1 ++
      ["docs/backlog/index.md (" ++ formatWriteResult pr2.2 ++ ")"]
    let final := (expandTargets target).foldl
      (genTargetsStep tmpl root effectiveStacks merged) (pr2.1, results2)
    (final.1, Except.ok
      { projectPath := root, target := target, dryRun := merged.dryRun,
        overwrite := merged.overwrite, stackList := effectiveStacks, results := final.2 })

/-! ### Canonical link rewriter of the server (src/server.ts) -/

/-- `posix.basename`-style segment folding of Node's `normalizeString`. -/
def normSegs (allowAboveRoot : Bool) (segs : List String) : List String :=
  segs.foldl
    (fun acc seg =>
      if seg = "" ∨ seg = "." then acc
      else if seg = ".." then
        match acc.getLast? with
        | some lastSeg =>
          if lastSeg ≠ ".." then acc.dropLast
          else if allowAboveRoot then acc ++ [".."] else acc
        | none => if allowAboveRoot then [".."] else []
      else acc ++ [seg])
    []

/-- Node `path.posix.normalize`. -/
def posixNormalize (p : String) : String :=
  if p = "" then "."
  else
    let isAbs := p.data.head? == some '/'
    let trailing := p.data.getLast? == some '/'
    let res := String.intercalate "/" (normSegs (!isAbs) (splitSlash p))
    if res = "" then
      (if isAbs then "/" else if trailing then "./" else ".")
    else
      let res2 := if trailing then res ++ "/" else res
      if isAbs then "/" ++ res2 else res2

/-- Node `path.posix.join` for two segments. -/
def posixJoin (a b : String) : String :=
  let joined := String.intercalate "/" ([a, b].filter (fun x => x ≠ ""))
  if joined = "" then "." else posixNormalize joined

/-- Node `path.posix.dirname`. -/
def posixDirname (p : String) : String :=
  if p = "" then "."
  else
    let hasRoot := p.data.head? == some '/'
    let rev := (p.data.drop 1).reverse
    let rev2 := (rev.dropWhile (fun c => c = '/')).dropWhile (fun c => c ≠ '/')
    match rev2 with
    | [] => if hasRoot then "/" else "."
    | _ :: restRev => ((p.data.take 1) ++ restRev.reverse).asString

/-- `pathDir(value)` of src/server.ts. -/
def pathDir (value : String) : String :=
  let dir := posixDirname value
  if dir = "." then "" else dir

/-- `splitHash(link)` of src/server.ts. -/
def splitHash (link : String) : String × String :=
  match link.data.findIdx? (fun c => c = '#') with
  | none => (link, "")
  | some i => ((link.data.take i).asString, (link.data.drop i).asString)

def isAsciiAlpha (c : Char) : Bool :=
  ('a' ≤ c && c ≤ 'z') || ('A' ≤ c && c ≤ 'Z')

/-- `isExternalLink(link)` of src/server.ts: the anchored case-insensitive
regex test for a scheme prefix (letters then a colon) or a bare hash. -/
def isExternalLink (link : String) : Bool :=
  if link.data.head? == some '#' then true
  else
    let letters := link.data.takeWhile isAsciiAlpha
    !letters.isEmpty && ((link.data.drop letters.length).head? == some ':')

/-- The reverse index DOC_ID_BY_PATH built from the DOCS table, in
insertion order. -/
def docIdByPath : List (String × String) :=
  [(".agent-loop/README.md", "overview"),
   ("AGENTS.md", "agents-md"),
   ("protocol-summary.md", "protocol-summary"),
   (".agent-loop/reasoning-kernel.md", "reasoning-kernel"),
   (".agent-loop/feedback.md", "feedback"),
   (".agent-loop/validate-env.md", "validate-env"),
   (".agent-loop/validate-n.md", "validate-n"),
   (".agent-loop/patterns.md", "patterns"),
   (".agent-loop/glossary.md", "glossary"),
   (".agent-loop/patterns/code-patterns.md", "code-patterns"),
   (".agent-loop/patterns/testing-guide.md", "testing-guide"),
   (".agent-loop/patterns/refactoring-workflow.md", "refactoring-workflow"),
   (".agent-loop/patterns/api-standards.md", "api-standards")]

/-- `.replace(/^\.\//, "")`. -/
def stripDotSlash (s : String) : String :=
  if s.data.take 2 = ['.', '/'] then (s.data.drop 2).asString else s

/-- The per-target transform of rewriteResourceLinks in src/server.ts. -/
def resourceTransform (sourcePath linkPath : String) : String :=
  if isExternalLink linkPath then linkPath
  else
    let ph := splitHash linkPath
    if ph.1 = "" then linkPath
    else
      let base := if pathDir sourcePath = "" then "." else pathDir sourcePath
      let canonical0 := stripDotSlash (posixNormalize (posixJoin base ph.1))
      let canonical1 :=
        if canonical0 = ".agent-loop/patterns" then ".agent-loop/patterns.md" else canonical0
      let canonical2 :=
        if canonical1 = "../AGENTS.md" ∨ canonical1 = "AGENTS.md" then "AGENTS.md" else canonical1
      if canonical2 = "../README.md" then linkPath
      else
        match docIdByPath.lookup canonical2 with
        | none => linkPath
        | some docId => "syncloop://docs/" ++ docId ++ ph.2

/-- `rewriteResourceLinks(content, sourcePath)` of src/server.ts. -/
def rewriteResourceLinks (content sourcePath : String) : String :=
  rewriteMarkdownLinks content (resourceTransform sourcePath)

/-! ### Small concrete instances used by witnesses and counterexamples -/

def emptyFs : Fs := ⟨fun _ => none, fun _ => false, fun _ => []⟩

def emptyEnv : Env := ⟨fun _ => none⟩

def emptyTemplate : Template := ⟨fun _ => "", []⟩

def oneFileFs (p c : String) : Fs :=
  ⟨fun q => if q = p then some c else none, fun _ => false, fun _ => []⟩

/-! ### Output writer lemmas -/

theorem writeOutput_dryRun (fs : Fs) (root rel c : String) (ov : Bool) :
    writeOutput fs root rel c ⟨true, ov⟩ =
      (fs, ⟨rel,
        if (fs.files (joinPath root rel)).isSome then
          (if ov then WriteStatus.wouldOverwrite else WriteStatus.skipped)
        else WriteStatus.wouldCreate⟩) := by
  unfold writeOutput
  by_cases hex : (fs.files (joinPath root rel)).isSome
  · by_cases hov : ov
    · simp [hex, hov]
    · simp [hex, hov]
  · simp [hex]

theorem pushWrite_dryRun_fst (st : Fs × List String) (root rel c : String) (ov : Bool) :
    (pushWrite st root rel c ⟨true, ov⟩).1 = st.1 := by
  unfold pushWrite
  rw [writeOutput_dryRun]

theorem foldl_fst_invariant {α : Type} (step : Fs × List String → α → Fs × List String)
    (h : ∀ st a, (step st a).1 = st.1) :
    ∀ (l : List α) (st : Fs × List String), (l.foldl step st).1 = st.1 := by
  intro l
  induction l with
  | nil => intro st; rfl
  | cons a rest ih =>
    intro st
    rw [List.foldl_cons, ih, h]

theorem genLoopStep_dryRun_fst (tmpl : Template) (root platform : String)
    (sts : List StackDefinition) (ov : Bool) (st : Fs × List String)
    (source : String × String) :
    (genLoopStep tmpl root platform sts ⟨true, ov⟩ st source).1 = st.1 := by
  unfold genLoopStep
  cases h1 : (platformConfigOf platform).lookup source.1 with
  | none => rfl
  | some entry =>
    cases h2 : WRAPPER_FILES.lookup source.1 with
    | none => rfl
    | some wrapperPath =>
      simp only
      rw [pushWrite_dryRun_fst]

theorem generatePlatformFiles_dryRun_fst (tmpl : Template) (fs : Fs)
    (root platform : String) (sts : List StackDefinition) (ov : Bool) :
    (generatePlatformFiles tmpl fs root platform sts ⟨true, ov⟩).1 = fs := by
  unfold generatePlatformFiles
  have h0 : (SOURCE_FILES.foldl (genLoopStep tmpl root platform sts ⟨true, ov⟩)
      (fs, ([] : List String))).1 = fs :=
    foldl_fst_invariant _ (fun st a => genLoopStep_dryRun_fst tmpl root platform sts ov st a)
      SOURCE_FILES (fs, [])
  split_ifs <;> simp [pushWrite_dryRun_fst, h0]

theorem genTargetsStep_dryRun_fst (tmpl : Template) (root : String)
    (sts : List StackDefinition) (ov : Bool) (st : Fs × List String) (t : String) :
    (genTargetsStep tmpl root sts ⟨true, ov⟩ st t).1 = st.1 := by
  unfold genTargetsStep
  simp only
  rw [generatePlatformFiles_dryRun_fst]

theorem init_dryRun_fst (env : Env) (tmpl : Template) (fs : Fs) (root : String)
    (target : InitTarget) (sl : List StackDefinition) (oo : Option Bool) :
    (init env tmpl fs root target sl ⟨some true, oo⟩).1 = fs := by
  unfold init
  cases hv : validateTarget target with
  | some err => rfl
  | none =>
    simp only [Option.getD_some, if_true]
    rw [writeOutput_dryRun, writeOutput_dryRun]
    simp only
    rw [foldl_fst_invariant _
      (fun st a => genTargetsStep_dryRun_fst tmpl root _ (oo.getD true) st a)]

/-! ### Claim theorems -/

/-- C9: `rewriteMarkdownLinks` applied with the identity transform returns
the input unchanged — the rewriter can alter nothing but the target
portion of inline links. -/
theorem rewriteMarkdownLinks_identity (content : String) :
    rewriteMarkdownLinks content (fun s => s) = content := by
  unfold rewriteMarkdownLinks
  rw [rmlGo_id, joinLines_splitLines]

/-- C1 counterexample: a dry-run `writeOutput` on an existing target with
`overwrite = false` reports `skipped`, not `would-overwrite` as the claim
states. -/
theorem writeOutput_dryRun_skipped_cex :
    (writeOutput (oneFileFs "/p/a.md" "old") "/p" "a.md" "new" ⟨true, false⟩).2.status
        = WriteStatus.skipped ∧
      WriteStatus.skipped ≠ WriteStatus.wouldOverwrite := by
  constructor
  · decide
  · decide

/-- C1 (amended): every dry-run `writeOutput` call and every dry-run
`init` call leaves the filesystem (files, directories and listing)
completely unchanged; the dry-run `writeOutput` reports `would-create`
when the target does not exist, `would-overwrite` when it exists and
`overwrite` is true, and `skipped` when it exists and `overwrite` is
false. -/
theorem dryRun_zero_mutation (fs : Fs) (root rel content : String) (ov : Bool) :
    (writeOutput fs root rel content ⟨true, ov⟩).1 = fs ∧
    (writeOutput fs root rel content ⟨true, ov⟩).2.status =
      (if (fs.files (joinPath root rel)).isSome then
        (if ov then WriteStatus.wouldOverwrite else WriteStatus.skipped)
       else WriteStatus.wouldCreate) ∧
    ∀ (env : Env) (tmpl : Template) (target : InitTarget)
      (sl : List StackDefinition) (oo : Option Bool),
      (init env tmpl fs root target sl ⟨some true, oo⟩).1 = fs := by
  refine ⟨?_, ?_, ?_⟩
  · rw [writeOutput_dryRun]
  · rw [writeOutput_dryRun]
  · intro env tmpl target sl oo
    exact init_dryRun_fst env tmpl fs root target sl oo

/-- C2: for a target outside the platform enum (a single id other than
"all", or a list with at least one invalid element) init throws the
validation error synchronously and performs zero filesystem mutation. -/
theorem init_invalid_target_throws (env : Env) (tmpl : Template) (fs : Fs)
    (root : String) (sl : List StackDefinition) (opts : InitOptionsIn) :
    (∀ s : String, s ≠ "all" → s ∉ ALL_PLATFORMS →
      init env tmpl fs root (.str s) sl opts =
        (fs, Except.error (unknownTargetMsg s))) ∧
    (∀ (l : List String) (t : String), t ∈ l → t ∉ ALL_PLATFORMS →
      (init env tmpl fs root (.list l) sl opts).1 = fs ∧
      ∃ e, (init env tmpl fs root (.list l) sl opts).2 = Except.error e) := by
  constructor
  · intro s hs hmem
    have hval : validateTarget (.str s) = some (unknownTargetMsg s) := by
      simp only [validateTarget]
      rw [if_pos]
      rw [Bool.and_eq_true, bne_iff_ne, Bool.not_eq_true']
      exact ⟨hs, by simpa using hmem⟩
    unfold init
    rw [hval]
  · intro l t htl hmem
    obtain ⟨e, he⟩ : ∃ e, validateTarget (.list l) = some e := by
      cases hv : validateTarget (.list l) with
      | some e => exact ⟨e, rfl⟩
      | none =>
        exfalso
        simp only [validateTarget] at hv
        rw [List.findSome?_eq_none_iff] at hv
        have := hv t htl
        rw [if_neg (by simpa using hmem)] at this
        cases this
    constructor
    · unfold init
      rw [he]
    · refine ⟨e, ?_⟩
      unfold init
      rw [he]

/-- C2 witness. -/
theorem init_invalid_target_throws_witness :
    init emptyEnv emptyTemplate emptyFs "/p" (.str "invalid-platform") [] {} =
      (emptyFs, Except.error (unknownTargetMsg "invalid-platform")) :=
  (init_invalid_target_throws emptyEnv emptyTemplate emptyFs "/p" [] {}).1
    "invalid-platform" (by decide) (by decide)

/-! ### C7: external links are never rewritten -/

theorem asString_data (s : String) : s.data.asString = s := by
  cases s
  rfl

theorem takeWhile_eq_take_of_boundary (p : Char → Bool) (ch : Char) (hch : p ch = false) :
    ∀ (l : Chars) (m : Nat), (∀ c ∈ l.take m, p c = true) →
      (l.drop m).head? = some ch → l.takeWhile p = l.take m := by
  intro l
  induction l with
  | nil =>
    intro m hall hhd
    rw [List.drop_nil] at hhd
    cases hhd
  | cons c rest ih =>
    intro m hall hhd
    cases m with
    | zero =>
      rw [List.drop_zero] at hhd
      simp only [List.head?] at hhd
      injection hhd with hcc
      rw [List.take_zero, List.takeWhile_cons, hcc, hch]
      simp
    | succ m2 =>
      have hc : p c = true := hall c (by simp)
      rw [List.takeWhile_cons, hc]
      simp only [List.take_succ_cons]
      rw [ih m2 (fun x hx => hall x (by simp [hx])) hhd]
      simp

theorem isExternalLink_of_shape (link : String)
    (h : link.data.head? = some '#' ∨
      ∃ m, 0 < m ∧ (∀ c ∈ link.data.take m, isAsciiAlpha c = true) ∧
        (link.data.drop m).head? = some ':') :
    isExternalLink link = true := by
  unfold isExternalLink
  rcases h with h | ⟨m, hm, hall, hcolon⟩
  · rw [if_pos]
    rw [h]
    rfl
  · have htw : link.data.takeWhile isAsciiAlpha = link.data.take m :=
      takeWhile_eq_take_of_boundary isAsciiAlpha ':' (by decide) link.data m hall hcolon
    have hmlen : m < link.data.length := by
      by_contra hle
      rw [List.drop_eq_nil_of_le (by omega)] at hcolon
      cases hcolon
    by_cases hhash : (link.data.head? == some '#') = true
    · rw [if_pos hhash]
    · rw [if_neg hhash]
      rw [htw]
      have hlen : (link.data.take m).length = m := by
        rw [List.length_take]
        omega
      rw [Bool.and_eq_true]
      constructor
      · cases hq : link.data.take m with
        | nil =>
          rw [hq] at hlen
          simp at hlen
          omega
        | cons a as => rfl
      · rw [hlen, hcolon]
        rfl

/-- C7: a link target that begins with a URL-scheme prefix (letters
followed by a colon) or with a bare `#` anchor is returned unchanged by
the canonical link rewriter; in particular `https://example.com` is never
rewritten. -/
theorem resourceTransform_external_unchanged (sourcePath link : String) :
    ((link.data.head? = some '#' ∨
      ∃ m, 0 < m ∧ (∀ c ∈ link.data.take m, isAsciiAlpha c = true) ∧
        (link.data.drop m).head? = some ':') →
      resourceTransform sourcePath link = link) ∧
    resourceTransform sourcePath "https://example.com" = "https://example.com" := by
  constructor
  · intro h
    have hext := isExternalLink_of_shape link h
    unfold resourceTransform
    rw [if_pos hext]
  · unfold resourceTransform
    rw [if_pos (show isExternalLink "https://example.com" = true by decide)]

/-- C7 witness. -/
theorem resourceTransform_external_unchanged_witness :
    resourceTransform ".agent-loop/feedback.md" "mailto:dev@example.com" =
      "mailto:dev@example.com" :=
  (resourceTransform_external_unchanged ".agent-loop/feedback.md" "mailto:dev@example.com").1
    (Or.inr ⟨6, by decide, by decide, by decide⟩)

/-! ### C6: fence-aware line scanning -/

theorem fenceToggleFold_cons (st : Bool) (p : String) (ps : List String) :
    fenceToggleFold st (p :: ps) =
      fenceToggleFold (if isFenceMarker p then !st else st) ps := by
  unfold fenceToggleFold
  rw [List.foldl_cons]

theorem rmlGo_getElem (f : String → String) :
    ∀ (pre : List String) (st : Bool) (line : String) (post : List String),
      (rmlGo f st (pre ++ line :: post))[pre.length]? =
        some (if isFenceMarker line then line
              else if fenceToggleFold st pre then line
              else (lineReplaceLinks f line.data).asString) := by
  intro pre
  induction pre with
  | nil =>
    intro st line post
    rw [List.nil_append, rmlGo]
    have hfold : fenceToggleFold st [] = st := rfl
    rw [hfold]
    by_cases h1 : isFenceMarker line
    · rw [if_pos h1, if_pos h1]
      simp
    · rw [if_neg h1, if_neg h1]
      by_cases h2 : st
      · rw [if_pos h2, if_pos h2]
        simp
      · rw [if_neg h2, if_neg h2]
        simp
  | cons p ps ih =>
    intro st line post
    rw [List.cons_append, rmlGo, fenceToggleFold_cons, List.length_cons]
    by_cases hp : isFenceMarker p
    · rw [if_pos hp, if_pos hp, List.getElem?_cons_succ, ih]
    · rw [if_neg hp, if_neg hp]
      by_cases hf : st
      · rw [if_pos hf, List.getElem?_cons_succ, ih]
      · rw [if_neg hf, List.getElem?_cons_succ, ih]

theorem rmlGo_true_no_marker (f : String → String) :
    ∀ lines : List String, (∀ l ∈ lines, isFenceMarker l = false) →
      rmlGo f true lines = lines := by
  intro lines
  induction lines with
  | nil => intro _; rfl
  | cons p ps ih =>
    intro h
    rw [rmlGo, if_neg (by rw [h p (by simp)]; exact Bool.false_ne_true), if_pos rfl,
      ih (fun l hl => h l (by simp [hl]))]

/-- C6: the fence-aware scanner returns every fence-marker line and every
line inside a fence byte-identical; an unterminated fence suppresses
rewriting to the end of the input; a line outside any fence gets exactly
the per-line inline-link replacement with the given transform. -/
theorem rewriteMarkdownLinks_fence_protection (f : String → String) (st : Bool)
    (pre : List String) (line : String) (post : List String) :
    ((isFenceMarker line = true ∨ fenceToggleFold st pre = true) →
      (rmlGo f st (pre ++ line :: post))[pre.length]? = some line) ∧
    ((∀ l ∈ pre, isFenceMarker l = false) → rmlGo f true pre = pre) ∧
    (isFenceMarker line = false → fenceToggleFold st pre = false →
      (rmlGo f st (pre ++ line :: post))[pre.length]? =
        some (lineReplaceLinks f line.data).asString) := by
  refine ⟨?_, rmlGo_true_no_marker f pre, ?_⟩
  · intro h
    rw [rmlGo_getElem]
    rcases h with h | h
    · rw [if_pos h]
    · by_cases h1 : isFenceMarker line
      · rw [if_pos h1]
      · rw [if_neg h1, if_pos h]
  · intro h1 h2
    rw [rmlGo_getElem, if_neg (by rw [h1]; exact Bool.false_ne_true),
      if_neg (by rw [h2]; exact Bool.false_ne_true)]

/-- C6 witness. -/
theorem rewriteMarkdownLinks_fence_protection_witness :
    (rmlGo (fun _ => "X") false (["```"] ++ "keep [a](b)" :: []))[1]? =
      some "keep [a](b)" :=
  (rewriteMarkdownLinks_fence_protection (fun _ => "X") false ["```"] "keep [a](b)" []).1
    (Or.inr (by decide))

/-! ### C5: the targeted test command placeholder -/

def cexStacks : List StackDefinition :=
  [{ name := "web", languages := ["TypeScript"], frameworks := ["React"] },
   { name := "api", languages := ["Python"], frameworks := ["FastAPI"],
     testRunner := some "pytest" }]

/-- On the single-token content, applyStacks reduces to the final install
replacement applied to the targeted-test value: the table matchers find no
match, the first three tokens do not occur, and the targeted token itself
is the whole content. -/
theorem applyStacks_targetedToken_eval (sts : List StackDefinition)
    (hemp : sts.isEmpty = false) :
    applyStacks "\x7btargeted test command\x7d" sts =
      (replaceAllL "\x7binstall command\x7d".data
        (orElseToken
          (String.intercalate " && "
            ((packageManagersOf sts).map (fun pm => pm ++ " install")))
          "\x7binstall command\x7d").data
        (targetedTestValue sts).data).asString := by
  unfold applyStacks
  rw [if_neg (by rw [hemp]; exact Bool.false_ne_true)]
  simp only
  rw [replaceFirstWith_eq_self legacyMatch _ _ (by decide),
    replaceFirstWith_eq_self generatedMatch _ _ (by decide)]
  simp only [replacementsOf, List.foldl_cons, List.foldl_nil]
  rw [replaceAllL_of_not_occurs "\x7btypecheck command\x7d".data _ _ (by decide),
    replaceAllL_of_not_occurs "\x7blint command\x7d".data _ _ (by decide),
    replaceAllL_of_not_occurs "\x7btest command\x7d".data _ _ (by decide),
    replaceAllL_self "\x7btargeted test command\x7d".data _ (by decide)]

/-- C5 counterexample: the first stack of `cexStacks` has no testRunner,
yet applyStacks still rewrites the targeted-test token (using the second
stack's runner) instead of leaving it untouched as the claim states. -/
theorem applyStacks_first_stack_testrunner_cex :
    (cexStacks.head?.map StackDefinition.testRunner) = some none ∧
    applyStacks "\x7btargeted test command\x7d" cexStacks = "pytest \x7bpath\x7d" ∧
    "pytest \x7bpath\x7d" ≠ "\x7btargeted test command\x7d" := by
  refine ⟨by decide, ?_, by decide⟩
  rw [applyStacks_targetedToken_eval cexStacks (by decide)]
  rw [show targetedTestValue cexStacks = "pytest \x7bpath\x7d" from by decide]
  rw [replaceAllL_of_not_occurs _ _ _ (by decide)]
  exact asString_data _

theorem filter_ne_empty_head (base : List String) (t : String) (rest : List String)
    (h : base.filter (fun s => s ≠ "") = t :: rest) : t ≠ "" := by
  have hmem : t ∈ base.filter (fun s => s ≠ "") := by
    rw [h]
    simp
  rw [List.mem_filter] at hmem
  simpa using hmem.2

/-- C5 (amended): applyStacks renders the targeted-test token from the
first stack that defines a (nonempty) testRunner, as that runner followed
by a space and the literal path placeholder; only when no stack defines a
testRunner is the token left untouched. -/
theorem applyStacks_targeted_test_token (sts : List StackDefinition) :
    (testRunnersOf sts = [] →
      applyStacks "\x7btargeted test command\x7d" sts = "\x7btargeted test command\x7d") ∧
    (∀ t rest, testRunnersOf sts = t :: rest →
      occursStr "\x7binstall command\x7d" (t ++ " \x7bpath\x7d") = false →
      applyStacks "\x7btargeted test command\x7d" sts = t ++ " \x7bpath\x7d") := by
  by_cases hemp : sts.isEmpty
  · constructor
    · intro _
      unfold applyStacks
      rw [if_pos hemp]
    · intro t rest hlist _
      exfalso
      have : sts = [] := List.isEmpty_iff.mp hemp
      rw [this] at hlist
      cases hlist
  · have hemp2 : sts.isEmpty = false := by
      cases h : sts.isEmpty
      · rfl
      · exact absurd h hemp
    constructor
    · intro hnone
      rw [applyStacks_targetedToken_eval sts hemp2]
      have hv : targetedTestValue sts = "\x7btargeted test command\x7d" := by
        unfold targetedTestValue
        rw [hnone]
        rfl
      rw [hv, replaceAllL_of_not_occurs _ _ _ (by decide)]
      exact asString_data _
    · intro t rest hlist hocc
      rw [applyStacks_targetedToken_eval sts hemp2]
      have htne : t ≠ "" := filter_ne_empty_head _ t rest hlist
      have hv : targetedTestValue sts = t ++ " \x7bpath\x7d" := by
        unfold targetedTestValue
        rw [hlist]
        simp only [List.head?]
        rw [if_neg htne]
      rw [hv, replaceAllL_of_not_occurs _ _ _ hocc]
      exact asString_data _

def pytestStack : StackDefinition :=
  { name := "api", languages := ["Python"], frameworks := ["FastAPI"],
    testRunner := some "pytest" }

/-- C5 witness. -/
theorem applyStacks_targeted_test_token_witness :
    applyStacks "\x7btargeted test command\x7d" [pytestStack] = "pytest \x7bpath\x7d" :=
  (applyStacks_targeted_test_token [pytestStack]).2 "pytest" [] (by decide) (by decide)

/-! ### C3: detectStacks is never empty and falls back exactly -/

/-- C3: detectStacks never returns an empty list, and when no candidate
directory yields a stack from either probe it returns exactly the single
Unknown fallback stack with no optional fields set. -/
theorem detectStacks_nonempty_fallback (env : Env) (fs : Fs) (root : String) :
    detectStacks env fs root ≠ [] ∧
    ((∀ rel ∈ candidateDirs fs root,
        detectNodeStack env fs root rel = none ∧ detectPythonStack fs root rel = none) →
      detectStacks env fs root =
        [{ name := "app", languages := ["Unknown"], frameworks := ["Unknown"] }]) := by
  constructor
  · unfold detectStacks
    simp only
    by_cases h : (dedupStacksAux
        ((candidateDirs fs root).foldl
          (fun acc rel =>
            acc ++ (detectNodeStack env fs root rel).toList ++
              (detectPythonStack fs root rel).toList) []) []).isEmpty
    · rw [if_pos h]
      simp
    · rw [if_neg h]
      exact fun hnil => h (by rw [hnil]; rfl)
  · intro hprobe
    unfold detectStacks
    simp only
    have hfold : ∀ (l : List String) (acc : List StackDefinition),
        (∀ rel ∈ l, detectNodeStack env fs root rel = none ∧
          detectPythonStack fs root rel = none) →
        l.foldl (fun acc rel =>
          acc ++ (detectNodeStack env fs root rel).toList ++
            (detectPythonStack fs root rel).toList) acc = acc := by
      intro l
      induction l with
      | nil => intro acc _; rfl
      | cons r rs ih =>
        intro acc h
        rw [List.foldl_cons, (h r (by simp)).1, (h r (by simp)).2]
        simp only [Option.toList_none, List.append_nil]
        exact ih acc (fun x hx => h x (by simp [hx]))
    rw [hfold (candidateDirs fs root) [] hprobe]
    rfl

/-- C3 witness. -/
theorem detectStacks_nonempty_fallback_witness :
    detectStacks emptyEnv emptyFs "/p" =
      [{ name := "app", languages := ["Unknown"], frameworks := ["Unknown"] }] :=
  (detectStacks_nonempty_fallback emptyEnv emptyFs "/p").2 (by decide)

/-! ### Path distinctness helpers -/

theorem string_eq_of_data_eq (a b : String) (h : a.data = b.data) : a = b := by
  cases a
  cases b
  exact congrArg String.mk h

theorem string_append_left_cancel (a b c : String) (h : a ++ b = a ++ c) : b = c := by
  have hd := congrArg String.data h
  rw [String.data_append, String.data_append] at hd
  exact string_eq_of_data_eq b c (List.append_cancel_left hd)

theorem append_ne_of_not_prefix (a p t : String)
    (h : a.data.isPrefixOf t.data = false) : a ++ p ≠ t := by
  intro heq
  have hd := congrArg String.data heq
  rw [String.data_append] at hd
  have hpre : a.data <+: t.data := ⟨p.data, hd⟩
  rw [List.isPrefixOf_iff_prefix.mpr hpre] at h
  cases h

theorem append_left_nonempty (a p : String) (ha : a ≠ "") : a ++ p ≠ "" := by
  intro h
  have hd := congrArg String.data h
  rw [String.data_append] at hd
  rcases List.append_eq_nil.mp hd with ⟨h1, -⟩
  exact ha (string_eq_of_data_eq a "" h1)

theorem joinPath_ne_of_ne (root a b : String) (ha : a ≠ "") (hb : b ≠ "")
    (hne : a ≠ b) : joinPath root a ≠ joinPath root b := by
  unfold joinPath
  rw [if_neg ha, if_neg hb]
  intro h
  rw [String.append_assoc, String.append_assoc] at h
  have h1 := string_append_left_cancel root _ _ h
  exact hne (string_append_left_cancel "/" a b h1)

theorem agentLoop_join_ne (root x rel : String) (hrel : rel ≠ "")
    (hpre : ".agent-loop/".data.isPrefixOf rel.data = false) :
    joinPath root (".agent-loop/" ++ x) ≠ joinPath root rel := by
  apply joinPath_ne_of_ne
  · exact append_left_nonempty ".agent-loop/" x (by decide)
  · exact hrel
  · exact append_ne_of_not_prefix ".agent-loop/" x rel hpre

theorem sourceFiles_join_ne (root rel : String) (hrel : rel ≠ "")
    (hpre : ".agent-loop/".data.isPrefixOf rel.data = false) :
    ∀ pc ∈ SOURCE_FILES, joinPath root pc.2 ≠ joinPath root rel := by
  intro pc hpc
  simp only [SOURCE_FILES, List.mem_cons, List.not_mem_nil, or_false] at hpc
  rcases hpc with rfl | rfl | rfl | rfl | rfl | rfl | rfl | rfl | rfl | rfl <;>
    · apply joinPath_ne_of_ne root _ rel (by decide) hrel
      intro h
      rw [← h] at hpre
      revert hpre
      decide

/-! ### Unconditional write lists -/

/-- Apply an ordered list of unconditional file writes (each with its
parent-directory creation). -/
def applyWrites (fs : Fs) (l : List (String × String)) : Fs :=
  l.foldl (fun a pc => writeFileFs (mkdirp a pc.1) pc.1 pc.2) fs

/-- The value written last at `q`, if any. -/
def assocLast (l : List (String × String)) (q : String) : Option String :=
  l.foldl (fun acc pc => if pc.1 = q then some pc.2 else acc) none

theorem assocLast_fold (q : String) :
    ∀ (l : List (String × String)) (acc : Option String),
      l.foldl (fun acc pc => if pc.1 = q then some pc.2 else acc) acc =
        (match assocLast l q with
         | some c => some c
         | none => acc) := by
  intro l
  induction l with
  | nil => intro acc; rfl
  | cons pc rest ih =>
    intro acc
    rw [List.foldl_cons, ih]
    have hLHS : assocLast (pc :: rest) q =
        (match assocLast rest q with
         | some c => some c
         | none => if pc.1 = q then some pc.2 else none) := by
      unfold assocLast
      rw [List.foldl_cons, ih]
      rfl
    rw [hLHS]
    cases assocLast rest q with
    | some c => rfl
    | none =>
      by_cases hq : pc.1 = q
      · rw [if_pos hq, if_pos hq]
      · rw [if_neg hq, if_neg hq]

theorem applyWrites_files (q : String) :
    ∀ (l : List (String × String)) (fs : Fs),
      (applyWrites fs l).files q =
        (match assocLast l q with
         | some c => some c
         | none => fs.files q) := by
  intro l
  induction l with
  | nil => intro fs; rfl
  | cons pc rest ih =>
    intro fs
    unfold applyWrites at ih ⊢
    rw [List.foldl_cons, ih]
    have hstep : (writeFileFs (mkdirp fs pc.1) pc.1 pc.2).files q =
        if pc.1 = q then some pc.2 else fs.files q := by
      unfold writeFileFs mkdirp
      simp only
      by_cases hq : q = pc.1
      · rw [if_pos hq, if_pos hq.symm]
      · rw [if_neg hq, if_neg (fun h => hq h.symm)]
    have hLHS : assocLast (pc :: rest) q =
        (match assocLast rest q with
         | some c => some c
         | none => if pc.1 = q then some pc.2 else none) := by
      unfold assocLast
      rw [List.foldl_cons, assocLast_fold]
      rfl
    rw [hLHS, hstep]
    cases assocLast rest q with
    | some c => rfl
    | none =>
      by_cases hq : pc.1 = q
      · rw [if_pos hq, if_pos hq]
      · rw [if_neg hq, if_neg hq]

theorem assocLast_eq_none (l : List (String × String)) (q : String)
    (h : ∀ pc ∈ l, pc.1 ≠ q) : assocLast l q = none := by
  induction l with
  | nil => rfl
  | cons pc rest ih =>
    have hLHS : assocLast (pc :: rest) q =
        (match assocLast rest q with
         | some c => some c
         | none => if pc.1 = q then some pc.2 else none) := by
      unfold assocLast
      rw [List.foldl_cons, assocLast_fold]
      rfl
    rw [hLHS, ih (fun x hx => h x (by simp [hx]))]
    rw [if_neg (h pc (by simp))]

theorem applyWrites_files_frame (l : List (String × String)) (fs : Fs) (q : String)
    (h : ∀ pc ∈ l, pc.1 ≠ q) : (applyWrites fs l).files q = fs.files q := by
  rw [applyWrites_files, assocLast_eq_none l q h]

theorem applyWrites_dirs (q : String) :
    ∀ (l : List (String × String)) (fs : Fs),
      (applyWrites fs l).dirs q =
        (fs.dirs q || l.any (fun pc => (parentPaths pc.1).contains q)) := by
  intro l
  induction l with
  | nil => intro fs; simp [applyWrites]
  | cons pc rest ih =>
    intro fs
    unfold applyWrites at ih ⊢
    rw [List.foldl_cons, ih]
    have hstep : (writeFileFs (mkdirp fs pc.1) pc.1 pc.2).dirs q =
        (fs.dirs q || (parentPaths pc.1).contains q) := rfl
    rw [hstep, List.any_cons]
    rw [Bool.or_assoc]

theorem applyWrites_entries :
    ∀ (l : List (String × String)) (fs : Fs), (applyWrites fs l).entries = fs.entries := by
  intro l
  induction l with
  | nil => intro fs; rfl
  | cons pc rest ih =>
    intro fs
    unfold applyWrites at ih ⊢
    rw [List.foldl_cons, ih]
    rfl

theorem applyWrites_append (fs : Fs) (l1 l2 : List (String × String)) :
    applyWrites fs (l1 ++ l2) = applyWrites (applyWrites fs l1) l2 := by
  unfold applyWrites
  rw [List.foldl_append]

/-! ### writeOutput evaluation, frame and monotonicity lemmas -/

theorem writeOutput_overwrite_eval (fs : Fs) (root rel c : String) :
    writeOutput fs root rel c ⟨false, true⟩ =
      (applyWrites fs [(joinPath root rel, c)],
       ⟨rel, if (fs.files (joinPath root rel)).isSome then
          WriteStatus.overwritten else WriteStatus.created⟩) := by
  unfold writeOutput applyWrites
  simp

theorem writeOutput_files_frame (fs : Fs) (root rel c : String) (opts : InitOptions)
    (q : String) (h : joinPath root rel ≠ q) :
    ((writeOutput fs root rel c opts).1).files q = fs.files q := by
  unfold writeOutput
  by_cases hskip : ((fs.files (joinPath root rel)).isSome && !opts.overwrite) = true
  · simp [hskip]
  · by_cases hd : opts.dryRun = true
    · simp [hskip, hd]
    · simp [hskip, hd, writeFileFs, mkdirp, Ne.symm h]

theorem writeOutput_files_mono (fs : Fs) (root rel c : String) (opts : InitOptions)
    (q : String) (h : (fs.files q).isSome = true) :
    (((writeOutput fs root rel c opts).1).files q).isSome = true := by
  unfold writeOutput
  by_cases hskip : ((fs.files (joinPath root rel)).isSome && !opts.overwrite) = true
  · simp [hskip, h]
  · by_cases hd : opts.dryRun = true
    · simp [hskip, hd, h]
    · by_cases hq : q = joinPath root rel
      · simp [hskip, hd, writeFileFs, mkdirp, hq]
      · simp [hskip, hd, writeFileFs, mkdirp, hq, h]

theorem writeOutput_target_isSome (fs : Fs) (root rel c : String) (ov : Bool) :
    (((writeOutput fs root rel c ⟨false, ov⟩).1).files (joinPath root rel)).isSome
      = true := by
  unfold writeOutput
  by_cases hskip : ((fs.files (joinPath root rel)).isSome && !ov) = true
  · rw [Bool.and_eq_true] at hskip
    simp [hskip.1, hskip.2]
  · simp [hskip, writeFileFs, mkdirp]

/-! ### cpSync lemmas -/

def treeWrites (tmpl : Template) (root : String) : List (String × String) :=
  tmpl.agentLoopTree.map (fun pc => (joinPath root (".agent-loop/" ++ pc.1), pc.2))

theorem cpSync_force_eval (tmpl : Template) (root : String) :
    ∀ fs : Fs, cpSyncAgentLoop tmpl fs root true = applyWrites fs (treeWrites tmpl root) := by
  unfold cpSyncAgentLoop treeWrites
  suffices hgen : ∀ (l : List (String × String)) (fs : Fs),
      l.foldl (cpStep root true) fs =
        applyWrites fs (l.map (fun pc => (joinPath root (".agent-loop/" ++ pc.1), pc.2))) by
    intro fs
    exact hgen tmpl.agentLoopTree fs
  intro l
  induction l with
  | nil => intro fs; rfl
  | cons pc rest ih =>
    intro fs
    rw [List.foldl_cons, List.map_cons]
    unfold applyWrites
    rw [List.foldl_cons]
    have hstep : cpStep root true fs pc =
        writeFileFs (mkdirp fs (joinPath root (".agent-loop/" ++ pc.1)))
          (joinPath root (".agent-loop/" ++ pc.1)) pc.2 := by
      simp [cpStep]
    rw [hstep]
    exact ih _

theorem cpSync_files_frame (tmpl : Template) (root : String) (force : Bool) (q : String)
    (h : ∀ x, joinPath root (".agent-loop/" ++ x) ≠ q) :
    ∀ fs : Fs, (cpSyncAgentLoop tmpl fs root force).files q = fs.files q := by
  unfold cpSyncAgentLoop
  suffices hgen : ∀ (l : List (String × String)) (fs : Fs),
      (l.foldl (cpStep root force) fs).files q = fs.files q by
    intro fs
    exact hgen tmpl.agentLoopTree fs
  intro l
  induction l with
  | nil => intro fs; rfl
  | cons pc rest ih =>
    intro fs
    rw [List.foldl_cons, ih]
    by_cases hc : (!force && (fs.files (joinPath root (".agent-loop/" ++ pc.1))).isSome) = true
    · simp [cpStep, hc]
    · simp [cpStep, hc, writeFileFs, mkdirp, Ne.symm (h pc.1)]

theorem cpStep_files_mono (root : String) (force : Bool) (fs : Fs)
    (pc : String × String) (q : String) (h : (fs.files q).isSome = true) :
    ((cpStep root force fs pc).files q).isSome = true := by
  by_cases hc : (!force && (fs.files (joinPath root (".agent-loop/" ++ pc.1))).isSome) = true
  · simp [cpStep, hc, h]
  · by_cases hq : q = joinPath root (".agent-loop/" ++ pc.1)
    · simp [cpStep, hc, writeFileFs, mkdirp, hq]
    · simp [cpStep, hc, writeFileFs, mkdirp, hq, h]

theorem cpSync_fold_files_mono (root : String) (force : Bool) (q : String) :
    ∀ (l : List (String × String)) (fs : Fs), (fs.files q).isSome = true →
      ((l.foldl (cpStep root force) fs).files q).isSome = true := by
  intro l
  induction l with
  | nil => intro fs h; exact h
  | cons pc rest ih =>
    intro fs h
    rw [List.foldl_cons]
    exact ih _ (cpStep_files_mono root force fs pc q h)

theorem cpSync_tree_isSome (tmpl : Template) (fs : Fs) (root : String) (force : Bool) :
    ∀ pc ∈ tmpl.agentLoopTree,
      ((cpSyncAgentLoop tmpl fs root force).files
        (joinPath root (".agent-loop/" ++ pc.1))).isSome = true := by
  unfold cpSyncAgentLoop
  suffices hgen : ∀ (l : List (String × String)) (fs : Fs), ∀ pc ∈ l,
      ((l.foldl (cpStep root force) fs).files
        (joinPath root (".agent-loop/" ++ pc.1))).isSome = true by
    exact hgen tmpl.agentLoopTree fs
  intro l
  induction l with
  | nil => intro fs pc hpc; cases hpc
  | cons hd rest ih =>
    intro fs pc hpc
    rw [List.foldl_cons]
    rcases List.mem_cons.mp hpc with rfl | hpc2
    · apply cpSync_fold_files_mono
      by_cases hc : (!force && (fs.files (joinPath root (".agent-loop/" ++ pc.1))).isSome) = true
      · rw [Bool.and_eq_true] at hc
        simp [cpStep, hc.1, hc.2]
      · simp [cpStep, hc, writeFileFs, mkdirp]
    · exact ih _ pc hpc2

/-! ### substituteCanonical lemmas -/

theorem substStep_files_other (root : String) (sts : List StackDefinition)
    (ov : Bool) (fs : Fs) (pc : String × String) (q : String)
    (h : joinPath root pc.2 ≠ q) :
    (substStep root sts ov fs pc).files q = fs.files q := by
  by_cases hc : (!ov && (fs.files (joinPath root pc.2)).isSome) = true
  · simp [substStep, hc]
  · cases hcur : fs.files (joinPath root pc.2) with
    | none => simp [substStep, hc, hcur]
    | some current =>
      by_cases hchg : applyStacks current sts ≠ current
      · have hov : ov = true := by
          cases ov
          · exact absurd (by simp [hcur]) hc
          · rfl
        simp [substStep, hc, hcur, hchg, writeFileFs, Ne.symm h, hov]
      · simp [substStep, hc, hcur, hchg]

theorem substituteCanonical_files_frame (root : String) (sts : List StackDefinition)
    (ov : Bool) (q : String) (h : ∀ pc ∈ SOURCE_FILES, joinPath root pc.2 ≠ q) :
    ∀ fs : Fs, (substituteCanonical fs root sts ov).files q = fs.files q := by
  unfold substituteCanonical
  suffices hgen : ∀ (l : List (String × String)),
      (∀ pc ∈ l, joinPath root pc.2 ≠ q) →
      ∀ fs : Fs, (l.foldl (substStep root sts ov) fs).files q = fs.files q by
    exact hgen SOURCE_FILES h
  intro l
  induction l with
  | nil => intro _ fs; rfl
  | cons pc rest ih =>
    intro hl fs
    rw [List.foldl_cons, ih (fun x hx => hl x (by simp [hx])),
      substStep_files_other root sts ov fs pc q (hl pc (by simp))]

theorem substStep_files_mono (root : String) (sts : List StackDefinition)
    (ov : Bool) (fs : Fs) (pc : String × String) (q : String)
    (h : (fs.files q).isSome = true) :
    ((substStep root sts ov fs pc).files q).isSome = true := by
  by_cases hc : (!ov && (fs.files (joinPath root pc.2)).isSome) = true
  · simp [substStep, hc, h]
  · cases hcur : fs.files (joinPath root pc.2) with
    | none => simp [substStep, hc, hcur, h]
    | some current =>
      have hov : ov = true := by
        cases ov
        · exact absurd (by simp [hcur]) hc
        · rfl
      by_cases hchg : applyStacks current sts ≠ current
      · by_cases hq : q = joinPath root pc.2
        · simp [substStep, hc, hcur, hchg, writeFileFs, hq, hov]
        · simp [substStep, hc, hcur, hchg, writeFileFs, hq, h, hov]
      · simp [substStep, hc, hcur, hchg, h, hov]

theorem substituteCanonical_files_mono (root : String) (sts : List StackDefinition)
    (ov : Bool) (q : String) :
    ∀ (l : List (String × String)) (fs : Fs), (fs.files q).isSome = true →
      ((l.foldl (substStep root sts ov) fs).files q).isSome = true := by
  intro l
  induction l with
  | nil => intro fs h; exact h
  | cons pc rest ih =>
    intro fs h
    rw [List.foldl_cons]
    exact ih _ (substStep_files_mono root sts ov fs pc q h)

/-! ### Platform write lists -/

/-- The write produced by one loop iteration of generatePlatformFiles. -/
def genLoopWrite (tmpl : Template) (root platform : String)
    (sts : List StackDefinition) (source : String × String) :
    Option (String × String) :=
  match (platformConfigOf platform).lookup source.1 with
  | none => none
  | some entry =>
    match WRAPPER_FILES.lookup source.1 with
    | none => none
    | some wrapperPath =>
      some (joinPath root entry.target,
        yamlFrontmatter entry.fm ++ "\n\n" ++ applyStacks (tmpl.read wrapperPath) sts)

def platLoopWrites (tmpl : Template) (root platform : String)
    (sts : List StackDefinition) : List (String × String) :=
  SOURCE_FILES.filterMap (genLoopWrite tmpl root platform sts)

/-- The post-loop per-platform writes of generatePlatformFiles. -/
def platformExtraWrites (tmpl : Template) (root platform : String)
    (sts : List StackDefinition) : List (String × String) :=
  if platform = "copilot" then
    [(joinPath root ".github/copilot-instructions.md", tmpl.read "protocol-summary.md"),
     (joinPath root ".github/agents/SyncLoop.agent.md",
       applyStacks (tmpl.read "wiring/agents-github.md") sts),
     (joinPath root ".github/agents/SyncLoop-Architect.agent.md",
       applyStacks (tmpl.read "wiring/agents-github-architect.md") sts),
     (joinPath root ".github/agents/SyncLoop-Fixer.agent.md",
       applyStacks (tmpl.read "wiring/agents-github-fixer.md") sts),
     (joinPath root ".github/skills/diagnose-failure/SKILL.md",
       applyStacks (tmpl.read "wiring/skills-diagnose-failure.md") sts)]
  else if platform = "cursor" then
    [(joinPath root ".cursor/rules/00-protocol.md",
       yamlFrontmatter
         [("description", .str "SyncLoop protocol summary and guardrails"),
          ("alwaysApply", .bool true)] ++ "\n\n" ++ tmpl.read "protocol-summary.md"),
     (joinPath root ".cursor/skills/diagnose-failure/SKILL.md",
       applyStacks (tmpl.read "wiring/skills-diagnose-failure.md") sts)]
  else if platform = "claude" then
    [(joinPath root "CLAUDE.md", tmpl.read "protocol-summary.md"),
     (joinPath root ".claude/agents/SyncLoop.md",
       applyStacks (tmpl.read "wiring/agents-claude.md") sts),
     (joinPath root ".claude/agents/SyncLoop-Architect.md",
       applyStacks (tmpl.read "wiring/agents-claude-architect.md") sts),
     (joinPath root ".claude/agents/SyncLoop-Fixer.md",
       applyStacks (tmpl.read "wiring/agents-claude-fixer.md") sts),
     (joinPath root ".claude/skills/diagnose-failure/SKILL.md",
       applyStacks (tmpl.read "wiring/skills-diagnose-failure.md") sts)]
  else if platform = "codex" then
    [(joinPath root "CODEX.md", tmpl.read "protocol-summary.md"),
     (joinPath root ".agents/skills/diagnose-failure/SKILL.md",
       applyStacks (tmpl.read "wiring/skills-diagnose-failure.md") sts),
     (joinPath root ".codex/config.toml", tmpl.read "wiring/codex-config.toml"),
     (joinPath root ".codex/agents/default.toml", tmpl.read "wiring/codex-agent-default.toml"),
     (joinPath root ".codex/agents/architect.toml",
       tmpl.read "wiring/codex-agent-architect.toml"),
     (joinPath root ".codex/agents/fixer.toml", tmpl.read "wiring/codex-agent-fixer.toml")]
  else []

def platWriteList (tmpl : Template) (root platform : String)
    (sts : List StackDefinition) : List (String × String) :=
  platLoopWrites tmpl root platform sts ++ platformExtraWrites tmpl root platform sts

/-- The relative target paths a platform generation may write, independent
of contents and options. -/
def platformTargets (platform : String) : List String :=
  (SOURCE_FILES.filterMap (fun source =>
    ((platformConfigOf platform).lookup source.1).map (fun e => e.target)))
  ++ (if platform = "copilot" then
        [".github/copilot-instructions.md", ".github/agents/SyncLoop.agent.md",
         ".github/agents/SyncLoop-Architect.agent.md",
         ".github/agents/SyncLoop-Fixer.agent.md",
         ".github/skills/diagnose-failure/SKILL.md"]
      else if platform = "cursor" then
        [".cursor/rules/00-protocol.md", ".cursor/skills/diagnose-failure/SKILL.md"]
      else if platform = "claude" then
        ["CLAUDE.md", ".claude/agents/SyncLoop.md", ".claude/agents/SyncLoop-Architect.md",
         ".claude/agents/SyncLoop-Fixer.md", ".claude/skills/diagnose-failure/SKILL.md"]
      else if platform = "codex" then
        ["CODEX.md", ".agents/skills/diagnose-failure/SKILL.md", ".codex/config.toml",
         ".codex/agents/default.toml", ".codex/agents/architect.toml",
         ".codex/agents/fixer.toml"]
      else [])

theorem applyWrites_cons (fs : Fs) (x : String × String) (l : List (String × String)) :
    applyWrites fs (x :: l) = applyWrites (applyWrites fs [x]) l := rfl

theorem pushWrite_overwrite_fst (st : Fs × List String) (root rel c : String) :
    (pushWrite st root rel c ⟨false, true⟩).1 =
      applyWrites st.1 [(joinPath root rel, c)] := by
  unfold pushWrite
  rw [writeOutput_overwrite_eval]

theorem pushWrite_files_frame (st : Fs × List String) (root rel c : String)
    (opts : InitOptions) (q : String) (h : joinPath root rel ≠ q) :
    ((pushWrite st root rel c opts).1).files q = st.1.files q := by
  unfold pushWrite
  exact writeOutput_files_frame st.1 root rel c opts q h

theorem genLoop_overwrite_eval (tmpl : Template) (root platform : String)
    (sts : List StackDefinition) :
    ∀ (l : List (String × String)) (st : Fs × List String),
      (l.foldl (genLoopStep tmpl root platform sts ⟨false, true⟩) st).1 =
        applyWrites st.1 (l.filterMap (genLoopWrite tmpl root platform sts)) := by
  intro l
  induction l with
  | nil => intro st; rfl
  | cons source rest ih =>
    intro st
    rw [List.foldl_cons, List.filterMap_cons]
    cases h1 : (platformConfigOf platform).lookup source.1 with
    | none =>
      have hstep : genLoopStep tmpl root platform sts ⟨false, true⟩ st source = st := by
        unfold genLoopStep
        rw [h1]
      have hwr : genLoopWrite tmpl root platform sts source = none := by
        unfold genLoopWrite
        rw [h1]
      rw [hstep, hwr, ih]
    | some entry =>
      cases h2 : WRAPPER_FILES.lookup source.1 with
      | none =>
        have hstep : genLoopStep tmpl root platform sts ⟨false, true⟩ st source = st := by
          unfold genLoopStep
          rw [h1, h2]
        have hwr : genLoopWrite tmpl root platform sts source = none := by
          unfold genLoopWrite
          rw [h1, h2]
        rw [hstep, hwr, ih]
      | some wrapperPath =>
        have hstep : genLoopStep tmpl root platform sts ⟨false, true⟩ st source =
            pushWrite st root entry.target
              (yamlFrontmatter entry.fm ++ "\n\n" ++
                applyStacks (tmpl.read wrapperPath) sts) ⟨false, true⟩ := by
          unfold genLoopStep
          rw [h1, h2]
        have hwr : genLoopWrite tmpl root platform sts source =
            some (joinPath root entry.target,
              yamlFrontmatter entry.fm ++ "\n\n" ++
                applyStacks (tmpl.read wrapperPath) sts) := by
          unfold genLoopWrite
          rw [h1, h2]
        rw [hstep, hwr, ih, applyWrites_cons]
        rw [pushWrite_overwrite_fst]

theorem genLoop_files_frame (tmpl : Template) (root platform : String)
    (sts : List StackDefinition) (opts : InitOptions) (q : String) :
    ∀ (l : List (String × String)) (st : Fs × List String),
      (∀ source ∈ l, ∀ entry, (platformConfigOf platform).lookup source.1 = some entry →
        joinPath root entry.target ≠ q) →
      ((l.foldl (genLoopStep tmpl root platform sts opts) st).1).files q =
        st.1.files q := by
  intro l
  induction l with
  | nil => intro st _; rfl
  | cons source rest ih =>
    intro st hl
    rw [List.foldl_cons]
    rw [ih _ (fun x hx => hl x (by simp [hx]))]
    cases h1 : (platformConfigOf platform).lookup source.1 with
    | none =>
      unfold genLoopStep
      rw [h1]
    | some entry =>
      cases h2 : WRAPPER_FILES.lookup source.1 with
      | none =>
        unfold genLoopStep
        rw [h1, h2]
      | some wrapperPath =>
        have hstep : genLoopStep tmpl root platform sts opts st source =
            pushWrite st root entry.target
              (yamlFrontmatter entry.fm ++ "\n\n" ++
                applyStacks (tmpl.read wrapperPath) sts) opts := by
          unfold genLoopStep
          rw [h1, h2]
        rw [hstep]
        exact pushWrite_files_frame st root entry.target _ opts q
          (hl source (by simp) entry h1)

theorem applyWrites_snoc (fs : Fs) (l : List (String × String)) (x : String × String) :
    applyWrites (applyWrites fs l) [x] = applyWrites fs (l ++ [x]) := by
  rw [applyWrites_append]

theorem generatePlatformFiles_overwrite_eval (tmpl : Template) (fs : Fs)
    (root platform : String) (sts : List StackDefinition) :
    (generatePlatformFiles tmpl fs root platform sts ⟨false, true⟩).1 =
      applyWrites fs (platWriteList tmpl root platform sts) := by
  unfold generatePlatformFiles platWriteList platformExtraWrites
  have hst0 := genLoop_overwrite_eval tmpl root platform sts SOURCE_FILES
    (fs, ([] : List String))
  by_cases h1 : platform = "copilot"
  · rw [if_pos h1, if_pos h1]
    simp only [pushWrite_overwrite_fst, applyWrites_snoc, hst0, platLoopWrites]
    simp
  · rw [if_neg h1, if_neg h1]
    by_cases h2 : platform = "cursor"
    · rw [if_pos h2, if_pos h2]
      simp only [pushWrite_overwrite_fst, applyWrites_snoc, hst0, platLoopWrites]
      simp
    · rw [if_neg h2, if_neg h2]
      by_cases h3 : platform = "claude"
      · rw [if_pos h3, if_pos h3]
        simp only [pushWrite_overwrite_fst, applyWrites_snoc, hst0, platLoopWrites]
        simp
      · rw [if_neg h3, if_neg h3]
        by_cases h4 : platform = "codex"
        · rw [if_pos h4, if_pos h4]
          simp only [pushWrite_overwrite_fst, applyWrites_snoc, hst0, platLoopWrites]
          simp
        · rw [if_neg h4, if_neg h4]
          simp only [hst0, platLoopWrites]
          rw [List.append_nil]

theorem platformTargets_covers_loop (platform root : String) (q : String)
    (h : ∀ rel ∈ platformTargets platform, joinPath root rel ≠ q) :
    ∀ source ∈ SOURCE_FILES, ∀ entry,
      (platformConfigOf platform).lookup source.1 = some entry →
      joinPath root entry.target ≠ q := by
  intro source hsrc entry hlk
  apply h
  unfold platformTargets
  apply List.mem_append_left
  exact List.mem_filterMap.mpr ⟨source, hsrc, by rw [hlk]; rfl⟩

theorem generatePlatformFiles_files_frame (tmpl : Template) (fs : Fs)
    (root platform : String) (sts : List StackDefinition) (opts : InitOptions)
    (q : String) (h : ∀ rel ∈ platformTargets platform, joinPath root rel ≠ q) :
    ((generatePlatformFiles tmpl fs root platform sts opts).1).files q = fs.files q := by
  have hextra : ∀ rel, rel ∈ (if platform = "copilot" then
        [".github/copilot-instructions.md", ".github/agents/SyncLoop.agent.md",
         ".github/agents/SyncLoop-Architect.agent.md",
         ".github/agents/SyncLoop-Fixer.agent.md",
         ".github/skills/diagnose-failure/SKILL.md"]
      else if platform = "cursor" then
        [".cursor/rules/00-protocol.md", ".cursor/skills/diagnose-failure/SKILL.md"]
      else if platform = "claude" then
        ["CLAUDE.md", ".claude/agents/SyncLoop.md", ".claude/agents/SyncLoop-Architect.md",
         ".claude/agents/SyncLoop-Fixer.md", ".claude/skills/diagnose-failure/SKILL.md"]
      else if platform = "codex" then
        ["CODEX.md", ".agents/skills/diagnose-failure/SKILL.md", ".codex/config.toml",
         ".codex/agents/default.toml", ".codex/agents/architect.toml",
         ".codex/agents/fixer.toml"]
      else []) → joinPath root rel ≠ q := by
    intro rel hrel
    apply h
    unfold platformTargets
    exact List.mem_append_right _ hrel
  have hloop := genLoop_files_frame tmpl root platform sts opts q SOURCE_FILES
    (fs, ([] : List String)) (platformTargets_covers_loop platform root q h)
  unfold generatePlatformFiles
  by_cases h1 : platform = "copilot"
  · rw [if_pos h1] at hextra ⊢
    rw [pushWrite_files_frame _ _ _ _ _ _ (hextra _ (by simp)),
      pushWrite_files_frame _ _ _ _ _ _ (hextra _ (by simp)),
      pushWrite_files_frame _ _ _ _ _ _ (hextra _ (by simp)),
      pushWrite_files_frame _ _ _ _ _ _ (hextra _ (by simp)),
      pushWrite_files_frame _ _ _ _ _ _ (hextra _ (by simp))]
    exact hloop
  · rw [if_neg h1] at hextra ⊢
    by_cases h2 : platform = "cursor"
    · rw [if_pos h2] at hextra ⊢
      rw [pushWrite_files_frame _ _ _ _ _ _ (hextra _ (by simp)),
        pushWrite_files_frame _ _ _ _ _ _ (hextra _ (by simp))]
      exact hloop
    · rw [if_neg h2] at hextra ⊢
      by_cases h3 : platform = "claude"
      · rw [if_pos h3] at hextra ⊢
        rw [pushWrite_files_frame _ _ _ _ _ _ (hextra _ (by simp)),
          pushWrite_files_frame _ _ _ _ _ _ (hextra _ (by simp)),
          pushWrite_files_frame _ _ _ _ _ _ (hextra _ (by simp)),
          pushWrite_files_frame _ _ _ _ _ _ (hextra _ (by simp)),
          pushWrite_files_frame _ _ _ _ _ _ (hextra _ (by simp))]
        exact hloop
      · rw [if_neg h3] at hextra ⊢
        by_cases h4 : platform = "codex"
        · rw [if_pos h4] at hextra ⊢
          rw [pushWrite_files_frame _ _ _ _ _ _ (hextra _ (by simp)),
            pushWrite_files_frame _ _ _ _ _ _ (hextra _ (by simp)),
            pushWrite_files_frame _ _ _ _ _ _ (hextra _ (by simp)),
            pushWrite_files_frame _ _ _ _ _ _ (hextra _ (by simp)),
            pushWrite_files_frame _ _ _ _ _ _ (hextra _ (by simp)),
            pushWrite_files_frame _ _ _ _ _ _ (hextra _ (by simp))]
          exact hloop
        · rw [if_neg h4]
          exact hloop

/-! ### The per-target fold of init -/

theorem genTargets_overwrite_eval (tmpl : Template) (root : String)
    (sts : List StackDefinition) :
    ∀ (ts : List String) (st : Fs × List String),
      (ts.foldl (genTargetsStep tmpl root sts ⟨false, true⟩) st).1 =
        applyWrites st.1 ((ts.map (fun t => platWriteList tmpl root t sts)).flatten) := by
  intro ts
  induction ts with
  | nil => intro st; rfl
  | cons t rest ih =>
    intro st
    rw [List.foldl_cons, List.map_cons, List.flatten_cons, applyWrites_append]
    rw [ih]
    have hstep : (genTargetsStep tmpl root sts ⟨false, true⟩ st t).1 =
        applyWrites st.1 (platWriteList tmpl root t sts) := by
      unfold genTargetsStep
      simp only
      exact generatePlatformFiles_overwrite_eval tmpl st.1 root t sts
    rw [hstep]

theorem genTargets_files_frame (tmpl : Template) (root : String)
    (sts : List StackDefinition) (merged : InitOptions) (q : String) :
    ∀ (ts : List String) (st : Fs × List String),
      (∀ t ∈ ts, ∀ rel ∈ platformTargets t, joinPath root rel ≠ q) →
      ((ts.foldl (genTargetsStep tmpl root sts merged) st).1).files q =
        st.1.files q := by
  intro ts
  induction ts with
  | nil => intro st _; rfl
  | cons t rest ih =>
    intro st hts
    rw [List.foldl_cons, ih _ (fun x hx => hts x (by simp [hx]))]
    unfold genTargetsStep
    simp only
    exact generatePlatformFiles_files_frame tmpl st.1 root t sts merged q
      (hts t (by simp))

theorem genTargets_results_prefix (tmpl : Template) (root : String)
    (sts : List StackDefinition) (merged : InitOptions) :
    ∀ (ts : List String) (st : Fs × List String),
      ∃ tl, (ts.foldl (genTargetsStep tmpl root sts merged) st).2 = st.2 ++ tl := by
  intro ts
  induction ts with
  | nil => intro st; exact ⟨[], by simp⟩
  | cons t rest ih =>
    intro st
    rw [List.foldl_cons]
    obtain ⟨tl, htl⟩ := ih (genTargetsStep tmpl root sts merged st t)
    refine ⟨(("\n[" ++ t ++ "]") ::
      (generatePlatformFiles tmpl st.1 root t sts merged).2) ++ tl, ?_⟩
    rw [htl]
    unfold genTargetsStep
    simp

/-! ### C10: empty-list target -/

/-- C10: parseTarget maps an empty or commas-and-whitespace-only string to
the empty platform list; init with that empty-list target does not throw,
still produces the canonical tree copy, AGENTS.md and the backlog index
(its results hold exactly the three orchestrator lines), and generates
zero platform-specific files. -/
theorem parseTarget_empty_init_no_platforms (env : Env) (tmpl : Template) (fs : Fs)
    (root : String) (sl : List StackDefinition) (oo : Option Bool) :
    parseTarget "" = InitTarget.list [] ∧
    parseTarget " , ," = InitTarget.list [] ∧
    (∃ r, (init env tmpl fs root (.list []) sl ⟨some false, oo⟩).2 = Except.ok r ∧
      r.results.length = 3) ∧
    (((init env tmpl fs root (.list []) sl ⟨some false, oo⟩).1).files
      (joinPath root "AGENTS.md")).isSome = true ∧
    (((init env tmpl fs root (.list []) sl ⟨some false, oo⟩).1).files
      (joinPath root "docs/backlog/index.md")).isSome = true ∧
    (∀ pc ∈ tmpl.agentLoopTree,
      (((init env tmpl fs root (.list []) sl ⟨some false, oo⟩).1).files
        (joinPath root (".agent-loop/" ++ pc.1))).isSome = true) ∧
    (∀ t ∈ ALL_PLATFORMS, ∀ rel ∈ platformTargets t,
      ((init env tmpl fs root (.list []) sl ⟨some false, oo⟩).1).files
          (joinPath root rel) =
        fs.files (joinPath root rel)) := by
  have hinit : init env tmpl fs root (.list []) sl ⟨some false, oo⟩ =
      (let es := if sl.length > 0 then sl else detectStacks env fs root
       let ov := oo.getD true
       let fs1 := if es.length > 0 then
           substituteCanonical (cpSyncAgentLoop tmpl fs root ov) root es ov
         else cpSyncAgentLoop tmpl fs root ov
       let pr1 := writeOutput fs1 root "AGENTS.md"
         (applyStacks (tmpl.read "AGENTS.md") es) ⟨false, ov⟩
       let pr2 := writeOutput pr1.1 root "docs/backlog/index.md"
         (tmpl.read "backlog-index.md") ⟨false, false⟩
       (pr2.1, Except.ok
         { projectPath := root, target := .list [], dryRun := false, overwrite := ov,
           stackList := es,
           results := [".agent-loop/ (canonical source)",
             "AGENTS.md (cross-platform entrypoint: " ++ formatWriteResult pr1.2 ++ ")",
             "docs/backlog/index.md (" ++ formatWriteResult pr2.2 ++ ")"] })) := rfl
  have hAb : joinPath root "docs/backlog/index.md" ≠ joinPath root "AGENTS.md" :=
    joinPath_ne_of_ne root _ _ (by decide) (by decide) (by decide)
  refine ⟨by decide, by decide, ?_, ?_, ?_, ?_, ?_⟩
  · rw [hinit]
    exact ⟨_, rfl, rfl⟩
  · rw [hinit]
    simp only
    rw [writeOutput_files_frame _ _ _ _ _ _ hAb]
    exact writeOutput_target_isSome _ _ _ _ _
  · rw [hinit]
    simp only
    exact writeOutput_target_isSome _ _ _ _ _
  · intro pc hpc
    rw [hinit]
    simp only
    apply writeOutput_files_mono
    apply writeOutput_files_mono
    by_cases hes : (if sl.length > 0 then sl else detectStacks env fs root).length > 0
    · rw [if_pos hes]
      apply substituteCanonical_files_mono
      exact cpSync_tree_isSome tmpl fs root _ pc hpc
    · rw [if_neg hes]
      exact cpSync_tree_isSome tmpl fs root _ pc hpc
  · intro t ht rel hrel
    have hd : rel ≠ "AGENTS.md" ∧ rel ≠ "docs/backlog/index.md" ∧ rel ≠ "" ∧
        ".agent-loop/".data.isPrefixOf rel.data = false := by
      revert rel
      revert t
      decide
    rw [hinit]
    simp only
    rw [writeOutput_files_frame _ _ _ _ _ _
        (joinPath_ne_of_ne root _ _ (by decide) hd.2.2.1 (fun heq => hd.2.1 heq.symm)),
      writeOutput_files_frame _ _ _ _ _ _
        (joinPath_ne_of_ne root _ _ (by decide) hd.2.2.1 (fun heq => hd.1 heq.symm))]
    by_cases hes : (if sl.length > 0 then sl else detectStacks env fs root).length > 0
    · rw [if_pos hes]
      rw [substituteCanonical_files_frame root _ _ _
        (sourceFiles_join_ne root rel hd.2.2.1 hd.2.2.2)]
      exact cpSync_files_frame tmpl root _ _
        (fun x => agentLoop_join_ne root x rel hd.2.2.1 hd.2.2.2) fs
    · rw [if_neg hes]
      exact cpSync_files_frame tmpl root _ _
        (fun x => agentLoop_join_ne root x rel hd.2.2.1 hd.2.2.2) fs

/-- C10 witness. -/
theorem parseTarget_empty_init_no_platforms_witness :
    (((init emptyEnv ⟨fun _ => "T", [("reasoning-kernel.md", "K")]⟩ emptyFs "/p"
        (.list []) [] ⟨some false, none⟩).1).files
      (joinPath "/p" (".agent-loop/" ++ "reasoning-kernel.md"))).isSome = true :=
  (parseTarget_empty_init_no_platforms emptyEnv
      ⟨fun _ => "T", [("reasoning-kernel.md", "K")]⟩ emptyFs "/p" [] none).2.2.2.2.2.1
    ("reasoning-kernel.md", "K") (by decide)

/-! ### C8: the backlog index is written with overwrite hard-coded off -/

theorem writeOutput_noOverwrite_skip (fs : Fs) (root rel c : String)
    (h : (fs.files (joinPath root rel)).isSome = true) :
    writeOutput fs root rel c ⟨false, false⟩ = (fs, ⟨rel, WriteStatus.skipped⟩) := by
  unfold writeOutput
  simp [h]

theorem writeOutput_creates_eval (fs : Fs) (root rel c : String) (ov : Bool)
    (h : fs.files (joinPath root rel) = none) :
    ((writeOutput fs root rel c ⟨false, ov⟩).1).files (joinPath root rel) = some c := by
  unfold writeOutput
  simp [h, writeFileFs, mkdirp]

theorem expandTargets_valid (target : InitTarget) (hv : validateTarget target = none) :
    ∀ t ∈ expandTargets target, t ∈ ALL_PLATFORMS := by
  cases target with
  | str s =>
    intro t ht
    simp only [expandTargets] at ht
    by_cases hs : s = "all"
    · rw [if_pos hs] at ht
      exact ht
    · rw [if_neg hs] at ht
      simp only [List.mem_singleton] at ht
      subst ht
      simp only [validateTarget] at hv
      by_cases hc : ALL_PLATFORMS.contains t = true
      · exact List.elem_iff.mp hc
      · exfalso
        rw [if_pos] at hv
        · cases hv
        · rw [Bool.and_eq_true, bne_iff_ne, Bool.not_eq_true']
          exact ⟨hs, Bool.eq_false_iff.mpr hc⟩
  | list l =>
    intro t ht
    simp only [validateTarget] at hv
    rw [List.findSome?_eq_none_iff] at hv
    have := hv t ht
    by_cases hc : ALL_PLATFORMS.contains t = true
    · exact List.elem_iff.mp hc
    · rw [if_neg hc] at this
      cases this

/-- C8: init writes the backlog index docs/backlog/index.md with overwrite
hard-coded to false: whatever the caller's overwrite flag, a pre-existing
file keeps its exact content and the run reports the write as skipped,
while a missing file is created from the backlog-index template. -/
theorem init_backlog_first_write_wins (env : Env) (tmpl : Template) (fs : Fs)
    (root : String) (target : InitTarget) (sl : List StackDefinition)
    (oo : Option Bool) (hv : validateTarget target = none) :
    (∀ c, fs.files (joinPath root "docs/backlog/index.md") = some c →
      ((init env tmpl fs root target sl ⟨some false, oo⟩).1).files
          (joinPath root "docs/backlog/index.md") = some c ∧
      ∃ r, (init env tmpl fs root target sl ⟨some false, oo⟩).2 = Except.ok r ∧
        r.results[2]? =
          some "docs/backlog/index.md (docs/backlog/index.md (skipped: exists))") ∧
    (fs.files (joinPath root "docs/backlog/index.md") = none →
      ((init env tmpl fs root target sl ⟨some false, oo⟩).1).files
          (joinPath root "docs/backlog/index.md") =
        some (tmpl.read "backlog-index.md")) := by
  have hinit : init env tmpl fs root target sl ⟨some false, oo⟩ =
      (let es := if sl.length > 0 then sl else detectStacks env fs root
       let ov := oo.getD true
       let fs1 := if es.length > 0 then
           substituteCanonical (cpSyncAgentLoop tmpl fs root ov) root es ov
         else cpSyncAgentLoop tmpl fs root ov
       let pr1 := writeOutput fs1 root "AGENTS.md"
         (applyStacks (tmpl.read "AGENTS.md") es) ⟨false, ov⟩
       let pr2 := writeOutput pr1.1 root "docs/backlog/index.md"
         (tmpl.read "backlog-index.md") ⟨false, false⟩
       let final := (expandTargets target).foldl (genTargetsStep tmpl root es ⟨false, ov⟩)
         (pr2.1, [".agent-loop/ (canonical source)",
           "AGENTS.md (cross-platform entrypoint: " ++ formatWriteResult pr1.2 ++ ")",
           "docs/backlog/index.md (" ++ formatWriteResult pr2.2 ++ ")"])
       (final.1, Except.ok
         { projectPath := root, target := target, dryRun := false, overwrite := ov,
           stackList := es, results := final.2 })) := by
    unfold init
    rw [hv]
    rfl
  have hAb : joinPath root "AGENTS.md" ≠ joinPath root "docs/backlog/index.md" :=
    joinPath_ne_of_ne root _ _ (by decide) (by decide) (by decide)
  have hcore : ∀ g : Fs,
      ((if (if sl.length > 0 then sl else detectStacks env fs root).length > 0 then
          substituteCanonical (cpSyncAgentLoop tmpl g root (oo.getD true)) root
            (if sl.length > 0 then sl else detectStacks env fs root) (oo.getD true)
        else cpSyncAgentLoop tmpl g root (oo.getD true))).files
          (joinPath root "docs/backlog/index.md") =
        g.files (joinPath root "docs/backlog/index.md") := by
    intro g
    by_cases hes : (if sl.length > 0 then sl else detectStacks env fs root).length > 0
    · rw [if_pos hes]
      rw [substituteCanonical_files_frame root _ _ _
        (sourceFiles_join_ne root _ (by decide) (by decide))]
      exact cpSync_files_frame tmpl root _ _
        (fun x => agentLoop_join_ne root x _ (by decide) (by decide)) g
    · rw [if_neg hes]
      exact cpSync_files_frame tmpl root _ _
        (fun x => agentLoop_join_ne root x _ (by decide) (by decide)) g
  have hplat : ∀ t ∈ expandTargets target, ∀ rel ∈ platformTargets t,
      joinPath root rel ≠ joinPath root "docs/backlog/index.md" := by
    have hd : ∀ t2 ∈ ALL_PLATFORMS, ∀ rel2 ∈ platformTargets t2,
        rel2 ≠ "docs/backlog/index.md" ∧ rel2 ≠ "" := by decide
    intro t ht rel hrel
    have htAll := expandTargets_valid target hv t ht
    exact joinPath_ne_of_ne root _ _ (hd t htAll rel hrel).2 (by decide)
      (hd t htAll rel hrel).1
  constructor
  · intro c hex
    rw [hinit]
    simp only
    have h1 : ∀ g : Fs, g.files (joinPath root "docs/backlog/index.md") = some c →
        (writeOutput g root "AGENTS.md"
          (applyStacks (tmpl.read "AGENTS.md")
            (if sl.length > 0 then sl else detectStacks env fs root))
          ⟨false, oo.getD true⟩).1.files (joinPath root "docs/backlog/index.md") =
          some c := by
      intro g hg
      rw [writeOutput_files_frame _ _ _ _ _ _ hAb]
      exact hg
    have hfs1 : (if (if sl.length > 0 then sl else detectStacks env fs root).length > 0 then
          substituteCanonical (cpSyncAgentLoop tmpl fs root (oo.getD true)) root
            (if sl.length > 0 then sl else detectStacks env fs root) (oo.getD true)
        else cpSyncAgentLoop tmpl fs root (oo.getD true)).files
          (joinPath root "docs/backlog/index.md") = some c := by
      rw [hcore fs]
      exact hex
    have hpr1 := h1 _ hfs1
    rw [writeOutput_noOverwrite_skip _ _ _ _ (by rw [hpr1]; rfl)]
    constructor
    · rw [genTargets_files_frame _ _ _ _ _ _ _ hplat]
      exact hpr1
    · refine ⟨_, rfl, ?_⟩
      obtain ⟨tl, htl⟩ := genTargets_results_prefix tmpl root
        (if sl.length > 0 then sl else detectStacks env fs root)
        ⟨false, oo.getD true⟩ (expandTargets target) _
      rw [htl]
      rw [List.getElem?_append_left (by simp)]
      rfl
  · intro hnone
    rw [hinit]
    simp only
    have hpr1 : (writeOutput
        (if (if sl.length > 0 then sl else detectStacks env fs root).length > 0 then
          substituteCanonical (cpSyncAgentLoop tmpl fs root (oo.getD true)) root
            (if sl.length > 0 then sl else detectStacks env fs root) (oo.getD true)
        else cpSyncAgentLoop tmpl fs root (oo.getD true)) root "AGENTS.md"
          (applyStacks (tmpl.read "AGENTS.md")
            (if sl.length > 0 then sl else detectStacks env fs root))
          ⟨false, oo.getD true⟩).1.files (joinPath root "docs/backlog/index.md") =
        none := by
      rw [writeOutput_files_frame _ _ _ _ _ _ hAb, hcore fs]
      exact hnone
    rw [genTargets_files_frame _ _ _ _ _ _ _ hplat]
    exact writeOutput_creates_eval _ _ _ _ _ hpr1

/-- C8 witness. -/
theorem init_backlog_first_write_wins_witness :
    ((init emptyEnv emptyTemplate (oneFileFs "/p/docs/backlog/index.md" "KEEP") "/p"
        (.str "codex") [] ⟨some false, some true⟩).1).files
      (joinPath "/p" "docs/backlog/index.md") = some "KEEP" :=
  ((init_backlog_first_write_wins emptyEnv emptyTemplate
      (oneFileFs "/p/docs/backlog/index.md" "KEEP") "/p" (.str "codex") []
      (some true) (by decide)).1 "KEEP" (by decide)).1

/-! ### C4: idempotence of the overwrite-mode run -/

theorem writeOutput_ov_fst (fs : Fs) (root rel c : String) :
    (writeOutput fs root rel c ⟨false, true⟩).1 =
      applyWrites fs [(joinPath root rel, c)] := by
  rw [writeOutput_overwrite_eval]

theorem writeOutput_noov_fst (fs : Fs) (root rel c : String) :
    (writeOutput fs root rel c ⟨false, false⟩).1 =
      if (fs.files (joinPath root rel)).isSome then fs
      else applyWrites fs [(joinPath root rel, c)] := by
  by_cases h : (fs.files (joinPath root rel)).isSome = true
  · simp [writeOutput, h]
  · simp [writeOutput, h, applyWrites]

theorem applyWrites_one (g : Fs) (p c q : String) :
    (applyWrites g [(p, c)]).files q = if p = q then some c else g.files q := by
  by_cases hp : p = q
  · subst hp
    simp [applyWrites, writeFileFs, mkdirp]
  · rw [if_neg hp]
    simp [applyWrites, writeFileFs, mkdirp, Ne.symm hp]

theorem substStep_files_eval (root : String) (sts : List StackDefinition) (fsx : Fs)
    (pc : String × String) (q : String) :
    (substStep root sts true fsx pc).files q =
      if q = joinPath root pc.2 then
        (fsx.files q).map (fun c => applyStacks c sts)
      else fsx.files q := by
  by_cases hq : q = joinPath root pc.2
  · rw [if_pos hq, hq]
    cases hcur : fsx.files (joinPath root pc.2) with
    | none => simp [substStep, hcur]
    | some current =>
      by_cases hchg : applyStacks current sts = current
      · simp [substStep, hcur, hchg]
      · simp [substStep, hcur, hchg, writeFileFs]
  · rw [if_neg hq]
    exact substStep_files_other root sts true fsx pc q (fun h => hq h.symm)

theorem subst_fold_files_eval (root : String) (sts : List StackDefinition) (q : String) :
    ∀ (l : List (String × String)),
      (l.map (fun pc => joinPath root pc.2)).Nodup →
      ∀ fsx : Fs,
        (l.foldl (substStep root sts true) fsx).files q =
          if q ∈ l.map (fun pc => joinPath root pc.2) then
            (fsx.files q).map (fun c => applyStacks c sts)
          else fsx.files q := by
  intro l
  induction l with
  | nil => intro _ fsx; simp
  | cons pc rest ih =>
    intro hnd fsx
    rw [List.map_cons, List.nodup_cons] at hnd
    rw [List.foldl_cons, ih hnd.2, substStep_files_eval, List.map_cons]
    by_cases hq : q = joinPath root pc.2
    · have hqr : q ∉ rest.map (fun pc2 => joinPath root pc2.2) := by
        rw [hq]; exact hnd.1
      rw [if_neg hqr, if_pos hq, if_pos (List.mem_cons.mpr (Or.inl hq))]
    · rw [if_neg hq]
      by_cases hqr : q ∈ rest.map (fun pc2 => joinPath root pc2.2)
      · rw [if_pos hqr, if_pos (List.mem_cons.mpr (Or.inr hqr))]
      · rw [if_neg hqr, if_neg (fun hmem => (List.mem_cons.mp hmem).elim hq hqr)]

theorem sourceDests_nodup (root : String) :
    (SOURCE_FILES.map (fun pc => joinPath root pc.2)).Nodup := by
  have h1 : SOURCE_FILES.map (fun pc => joinPath root pc.2) =
      (SOURCE_FILES.map (fun pc => pc.2)).map (fun rel => joinPath root rel) := by
    rw [List.map_map]
    rfl
  rw [h1]
  refine List.Nodup.map_on ?_ (by decide)
  intro x hx y hy heq
  by_contra hne
  have hall : ∀ z ∈ SOURCE_FILES.map (fun pc => pc.2), z ≠ "" := by decide
  exact joinPath_ne_of_ne root x y (hall x hx) (hall y hy) hne heq

theorem substituteCanonical_files_eval (root : String) (sts : List StackDefinition)
    (fsx : Fs) (q : String) :
    (substituteCanonical fsx root sts true).files q =
      if q ∈ SOURCE_FILES.map (fun pc => joinPath root pc.2) then
        (fsx.files q).map (fun c => applyStacks c sts)
      else fsx.files q :=
  subst_fold_files_eval root sts q SOURCE_FILES (sourceDests_nodup root) fsx

theorem substStep_dirs (root : String) (sts : List StackDefinition) (ov : Bool)
    (fsx : Fs) (pc : String × String) : (substStep root sts ov fsx pc).dirs = fsx.dirs := by
  by_cases hc : (!ov && ((fsx.files (joinPath root pc.2)).isSome)) = true
  · simp [substStep, hc]
  · cases hcur : fsx.files (joinPath root pc.2) with
    | none => simp [substStep, hc, hcur]
    | some current =>
      by_cases hchg : applyStacks current sts = current
      · simp [substStep, hc, hcur, hchg]
      · have hov : ov = true := by
          cases ov
          · exact absurd (by simp [hcur]) hc
          · rfl
        simp [substStep, hc, hcur, hchg, writeFileFs, hov]

theorem substStep_entries (root : String) (sts : List StackDefinition) (ov : Bool)
    (fsx : Fs) (pc : String × String) :
    (substStep root sts ov fsx pc).entries = fsx.entries := by
  by_cases hc : (!ov && ((fsx.files (joinPath root pc.2)).isSome)) = true
  · simp [substStep, hc]
  · cases hcur : fsx.files (joinPath root pc.2) with
    | none => simp [substStep, hc, hcur]
    | some current =>
      by_cases hchg : applyStacks current sts = current
      · simp [substStep, hc, hcur, hchg]
      · have hov : ov = true := by
          cases ov
          · exact absurd (by simp [hcur]) hc
          · rfl
        simp [substStep, hc, hcur, hchg, writeFileFs, hov]

theorem subst_fold_dirs (root : String) (sts : List StackDefinition) (ov : Bool) :
    ∀ (l : List (String × String)) (fsx : Fs),
      (l.foldl (substStep root sts ov) fsx).dirs = fsx.dirs := by
  intro l
  induction l with
  | nil => intro fsx; rfl
  | cons pc rest ih =>
    intro fsx
    rw [List.foldl_cons, ih, substStep_dirs]

theorem subst_fold_entries (root : String) (sts : List StackDefinition) (ov : Bool) :
    ∀ (l : List (String × String)) (fsx : Fs),
      (l.foldl (substStep root sts ov) fsx).entries = fsx.entries := by
  intro l
  induction l with
  | nil => intro fsx; rfl
  | cons pc rest ih =>
    intro fsx
    rw [List.foldl_cons, ih, substStep_entries]

theorem substituteCanonical_dirs_eq (fsx : Fs) (root : String)
    (sts : List StackDefinition) (ov : Bool) :
    (substituteCanonical fsx root sts ov).dirs = fsx.dirs :=
  subst_fold_dirs root sts ov SOURCE_FILES fsx

theorem substituteCanonical_entries_eq (fsx : Fs) (root : String)
    (sts : List StackDefinition) (ov : Bool) :
    (substituteCanonical fsx root sts ov).entries = fsx.entries :=
  subst_fold_entries root sts ov SOURCE_FILES fsx

theorem platWriteList_fst (tmpl : Template) (root platform : String)
    (sts : List StackDefinition) :
    ∀ x ∈ platWriteList tmpl root platform sts,
      ∃ rel ∈ platformTargets platform, x.1 = joinPath root rel := by
  intro x hx
  unfold platWriteList at hx
  rcases List.mem_append.mp hx with hl | he
  · unfold platLoopWrites at hl
    obtain ⟨source, hsrc, hw⟩ := List.mem_filterMap.mp hl
    unfold genLoopWrite at hw
    cases h1 : (platformConfigOf platform).lookup source.1 with
    | none =>
      simp only [h1] at hw
      exact Option.noConfusion hw
    | some entry =>
      simp only [h1] at hw
      cases h2 : WRAPPER_FILES.lookup source.1 with
      | none =>
        simp only [h2] at hw
        exact Option.noConfusion hw
      | some wrapperPath =>
        simp only [h2] at hw
        injection hw with hw2
        refine ⟨entry.target, ?_, ?_⟩
        · unfold platformTargets
          exact List.mem_append_left _
            (List.mem_filterMap.mpr ⟨source, hsrc, by rw [h1]; rfl⟩)
        · rw [← hw2]
  · unfold platformExtraWrites at he
    by_cases h1 : platform = "copilot"
    · subst h1
      rw [if_pos rfl] at he
      simp only [List.mem_cons, List.not_mem_nil, or_false] at he
      rcases he with rfl | rfl | rfl | rfl | rfl
      · exact ⟨".github/copilot-instructions.md", by decide, rfl⟩
      · exact ⟨".github/agents/SyncLoop.agent.md", by decide, rfl⟩
      · exact ⟨".github/agents/SyncLoop-Architect.agent.md", by decide, rfl⟩
      · exact ⟨".github/agents/SyncLoop-Fixer.agent.md", by decide, rfl⟩
      · exact ⟨".github/skills/diagnose-failure/SKILL.md", by decide, rfl⟩
    · rw [if_neg h1] at he
      by_cases h2 : platform = "cursor"
      · subst h2
        rw [if_pos rfl] at he
        simp only [List.mem_cons, List.not_mem_nil, or_false] at he
        rcases he with rfl | rfl
        · exact ⟨".cursor/rules/00-protocol.md", by decide, rfl⟩
        · exact ⟨".cursor/skills/diagnose-failure/SKILL.md", by decide, rfl⟩
      · rw [if_neg h2] at he
        by_cases h3 : platform = "claude"
        · subst h3
          rw [if_pos rfl] at he
          simp only [List.mem_cons, List.not_mem_nil, or_false] at he
          rcases he with rfl | rfl | rfl | rfl | rfl
          · exact ⟨"CLAUDE.md", by decide, rfl⟩
          · exact ⟨".claude/agents/SyncLoop.md", by decide, rfl⟩
          · exact ⟨".claude/agents/SyncLoop-Architect.md", by decide, rfl⟩
          · exact ⟨".claude/agents/SyncLoop-Fixer.md", by decide, rfl⟩
          · exact ⟨".claude/skills/diagnose-failure/SKILL.md", by decide, rfl⟩
        · rw [if_neg h3] at he
          by_cases h4 : platform = "codex"
          · subst h4
            rw [if_pos rfl] at he
            simp only [List.mem_cons, List.not_mem_nil, or_false] at he
            rcases he with rfl | rfl | rfl | rfl | rfl | rfl
            · exact ⟨"CODEX.md", by decide, rfl⟩
            · exact ⟨".agents/skills/diagnose-failure/SKILL.md", by decide, rfl⟩
            · exact ⟨".codex/config.toml", by decide, rfl⟩
            · exact ⟨".codex/agents/default.toml", by decide, rfl⟩
            · exact ⟨".codex/agents/architect.toml", by decide, rfl⟩
            · exact ⟨".codex/agents/fixer.toml", by decide, rfl⟩
          · rw [if_neg h4] at he
            cases he

theorem treeWrites_assocLast_none (tmpl : Template) (root rel : String) (h1 : rel ≠ "")
    (h2 : ".agent-loop/".data.isPrefixOf rel.data = false) :
    assocLast (treeWrites tmpl root) (joinPath root rel) = none := by
  apply assocLast_eq_none
  intro x hx
  obtain ⟨pc, hpc, rfl⟩ := List.mem_map.mp hx
  exact agentLoop_join_ne root pc.1 rel h1 h2

theorem sourceDests_not_mem (root rel : String) (h1 : rel ≠ "")
    (h2 : ".agent-loop/".data.isPrefixOf rel.data = false) :
    joinPath root rel ∉ SOURCE_FILES.map (fun pc => joinPath root pc.2) := by
  intro hmem
  obtain ⟨pc, hpc, heq⟩ := List.mem_map.mp hmem
  exact sourceFiles_join_ne root rel h1 h2 pc hpc heq

theorem platFlatten_assocLast_none (tmpl : Template) (root : String) (target : InitTarget)
    (sl : List StackDefinition) (rel : String) (hv : validateTarget target = none)
    (h1 : rel ≠ "")
    (h2 : ∀ t ∈ ALL_PLATFORMS, ∀ rel2 ∈ platformTargets t, rel2 ≠ rel ∧ rel2 ≠ "") :
    assocLast (((expandTargets target).map (fun t => platWriteList tmpl root t sl)).flatten)
      (joinPath root rel) = none := by
  apply assocLast_eq_none
  intro x hx
  rw [List.mem_flatten] at hx
  obtain ⟨lw, hlw, hxl⟩ := hx
  rw [List.mem_map] at hlw
  obtain ⟨t, ht, rfl⟩ := hlw
  obtain ⟨rel2, hrel2, hx1⟩ := platWriteList_fst tmpl root t sl x hxl
  rw [hx1]
  have htAll := expandTargets_valid target hv t ht
  exact joinPath_ne_of_ne root rel2 rel (h2 t htAll rel2 hrel2).2 h1
    (h2 t htAll rel2 hrel2).1

/-- The AGENTS.md write stage of the overwrite-mode run: canonical tree
copy, in-place stack substitution, then the AGENTS.md write. -/
def owStage2 (tmpl : Template) (g : Fs) (root : String) (sl : List StackDefinition) : Fs :=
  applyWrites (substituteCanonical (applyWrites g (treeWrites tmpl root)) root sl true)
    [(joinPath root "AGENTS.md", applyStacks (tmpl.read "AGENTS.md") sl)]

/-- One dryRun=false, overwrite=true run of init as an unconditional write
pipeline: tree copy with substitution, AGENTS.md, the conditional backlog
index, then every per-platform write. -/
def owPipeline (tmpl : Template) (g : Fs) (root : String) (target : InitTarget)
    (sl : List StackDefinition) : Fs :=
  applyWrites
    (if ((owStage2 tmpl g root sl).files (joinPath root "docs/backlog/index.md")).isSome
     then owStage2 tmpl g root sl
     else applyWrites (owStage2 tmpl g root sl)
       [(joinPath root "docs/backlog/index.md", tmpl.read "backlog-index.md")])
    (((expandTargets target).map (fun t => platWriteList tmpl root t sl)).flatten)

theorem init_overwrite_shape (env : Env) (tmpl : Template) (g : Fs) (root : String)
    (target : InitTarget) (sl : List StackDefinition)
    (hv : validateTarget target = none) (hlen : sl.length > 0) :
    (init env tmpl g root target sl ⟨some false, some true⟩).1 =
      owPipeline tmpl g root target sl := by
  have h0 : init env tmpl g root target sl ⟨some false, some true⟩ =
      (let es := if sl.length > 0 then sl else detectStacks env g root
       let fs1 := if es.length > 0 then
           substituteCanonical (cpSyncAgentLoop tmpl g root true) root es true
         else cpSyncAgentLoop tmpl g root true
       let pr1 := writeOutput fs1 root "AGENTS.md"
         (applyStacks (tmpl.read "AGENTS.md") es) ⟨false, true⟩
       let pr2 := writeOutput pr1.1 root "docs/backlog/index.md"
         (tmpl.read "backlog-index.md") ⟨false, false⟩
       let final := (expandTargets target).foldl (genTargetsStep tmpl root es ⟨false, true⟩)
         (pr2.1, [".agent-loop/ (canonical source)",
           "AGENTS.md (cross-platform entrypoint: " ++ formatWriteResult pr1.2 ++ ")",
           "docs/backlog/index.md (" ++ formatWriteResult pr2.2 ++ ")"])
       (final.1, Except.ok
         { projectPath := root, target := target, dryRun := false, overwrite := true,
           stackList := es, results := final.2 })) := by
    unfold init
    rw [hv]
    rfl
  rw [h0]
  simp only [if_pos hlen]
  rw [genTargets_overwrite_eval]
  rw [writeOutput_ov_fst]
  rw [writeOutput_noov_fst]
  rw [cpSync_force_eval tmpl root]
  rfl

theorem owStage2_files (tmpl : Template) (g : Fs) (root : String)
    (sl : List StackDefinition) (q : String) :
    (owStage2 tmpl g root sl).files q =
      if joinPath root "AGENTS.md" = q then
        some (applyStacks (tmpl.read "AGENTS.md") sl)
      else if q ∈ SOURCE_FILES.map (fun pc => joinPath root pc.2) then
        ((applyWrites g (treeWrites tmpl root)).files q).map (fun c => applyStacks c sl)
      else (applyWrites g (treeWrites tmpl root)).files q := by
  unfold owStage2
  rw [applyWrites_one]
  by_cases hA : joinPath root "AGENTS.md" = q
  · rw [if_pos hA, if_pos hA]
  · rw [if_neg hA, if_neg hA,
      substituteCanonical_files_eval root sl (applyWrites g (treeWrites tmpl root)) q]

theorem owStage2_files_pB (tmpl : Template) (g : Fs) (root : String)
    (sl : List StackDefinition) :
    (owStage2 tmpl g root sl).files (joinPath root "docs/backlog/index.md") =
      g.files (joinPath root "docs/backlog/index.md") := by
  rw [owStage2_files]
  rw [if_neg (joinPath_ne_of_ne root "AGENTS.md" "docs/backlog/index.md"
    (by decide) (by decide) (by decide))]
  rw [if_neg (sourceDests_not_mem root "docs/backlog/index.md" (by decide) (by decide))]
  rw [applyWrites_files]
  simp only [treeWrites_assocLast_none tmpl root "docs/backlog/index.md"
    (by decide) (by decide)]

theorem owStage2_dirs (tmpl : Template) (g : Fs) (root : String)
    (sl : List StackDefinition) (q : String) :
    (owStage2 tmpl g root sl).dirs q =
      ((g.dirs q ||
        (treeWrites tmpl root).any (fun pc => (parentPaths pc.1).contains q)) ||
       [(joinPath root "AGENTS.md", applyStacks (tmpl.read "AGENTS.md") sl)].any
         (fun pc => (parentPaths pc.1).contains q)) := by
  unfold owStage2
  rw [applyWrites_dirs, substituteCanonical_dirs_eq, applyWrites_dirs]

theorem owPipeline_entries (tmpl : Template) (g : Fs) (root : String)
    (target : InitTarget) (sl : List StackDefinition) :
    (owPipeline tmpl g root target sl).entries = g.entries := by
  have hs2 : (owStage2 tmpl g root sl).entries = g.entries := by
    unfold owStage2
    rw [applyWrites_entries, substituteCanonical_entries_eq, applyWrites_entries]
  unfold owPipeline
  rw [applyWrites_entries]
  by_cases hc : ((owStage2 tmpl g root sl).files
      (joinPath root "docs/backlog/index.md")).isSome = true
  · rw [if_pos hc, hs2]
  · rw [if_neg hc, applyWrites_entries, hs2]

theorem owPipeline_files_untouched (tmpl : Template) (g : Fs) (root : String)
    (target : InitTarget) (sl : List StackDefinition) (q : String)
    (hq : assocLast
      (((expandTargets target).map (fun t => platWriteList tmpl root t sl)).flatten) q = none)
    (hqB : joinPath root "docs/backlog/index.md" ≠ q) :
    (owPipeline tmpl g root target sl).files q = (owStage2 tmpl g root sl).files q := by
  unfold owPipeline
  rw [applyWrites_files]
  simp only [hq]
  by_cases hc : ((owStage2 tmpl g root sl).files
      (joinPath root "docs/backlog/index.md")).isSome = true
  · rw [if_pos hc]
  · rw [if_neg hc, applyWrites_one, if_neg hqB]

theorem owPipeline_files_pB_of_missing (tmpl : Template) (g : Fs) (root : String)
    (target : InitTarget) (sl : List StackDefinition)
    (hPn : assocLast
      (((expandTargets target).map (fun t => platWriteList tmpl root t sl)).flatten)
      (joinPath root "docs/backlog/index.md") = none)
    (hg : g.files (joinPath root "docs/backlog/index.md") = none) :
    (owPipeline tmpl g root target sl).files (joinPath root "docs/backlog/index.md") =
      some (tmpl.read "backlog-index.md") := by
  have hc1 : (owStage2 tmpl g root sl).files (joinPath root "docs/backlog/index.md") =
      none := by
    rw [owStage2_files_pB]; exact hg
  unfold owPipeline
  rw [applyWrites_files]
  simp only [hPn]
  rw [if_neg (by rw [hc1]; simp), applyWrites_one, if_pos rfl]

theorem owPipeline_files_pB_of_present (tmpl : Template) (g : Fs) (root : String)
    (target : InitTarget) (sl : List StackDefinition)
    (hPn : assocLast
      (((expandTargets target).map (fun t => platWriteList tmpl root t sl)).flatten)
      (joinPath root "docs/backlog/index.md") = none)
    (hg : ((owStage2 tmpl g root sl).files
      (joinPath root "docs/backlog/index.md")).isSome = true) :
    (owPipeline tmpl g root target sl).files (joinPath root "docs/backlog/index.md") =
      (owStage2 tmpl g root sl).files (joinPath root "docs/backlog/index.md") := by
  unfold owPipeline
  rw [applyWrites_files]
  simp only [hPn]
  rw [if_pos hg]

theorem owPipeline_dirs_of_present (tmpl : Template) (g : Fs) (root : String)
    (target : InitTarget) (sl : List StackDefinition) (q : String)
    (hc : ((owStage2 tmpl g root sl).files
      (joinPath root "docs/backlog/index.md")).isSome = true) :
    (owPipeline tmpl g root target sl).dirs q =
      ((owStage2 tmpl g root sl).dirs q ||
       (((expandTargets target).map (fun t => platWriteList tmpl root t sl)).flatten).any
         (fun pc => (parentPaths pc.1).contains q)) := by
  unfold owPipeline
  rw [applyWrites_dirs, if_pos hc]

theorem owPipeline_dirs_of_missing (tmpl : Template) (g : Fs) (root : String)
    (target : InitTarget) (sl : List StackDefinition) (q : String)
    (hc : (owStage2 tmpl g root sl).files (joinPath root "docs/backlog/index.md") = none) :
    (owPipeline tmpl g root target sl).dirs q =
      (((owStage2 tmpl g root sl).dirs q ||
        [(joinPath root "docs/backlog/index.md", tmpl.read "backlog-index.md")].any
          (fun pc => (parentPaths pc.1).contains q)) ||
       (((expandTargets target).map (fun t => platWriteList tmpl root t sl)).flatten).any
         (fun pc => (parentPaths pc.1).contains q)) := by
  unfold owPipeline
  rw [applyWrites_dirs, if_neg (by rw [hc]; simp), applyWrites_dirs]

theorem bool_or_reabsorb (x t a b p : Bool) :
    (((((((x || t) || a) || b) || p) || t) || a) || p) = ((((x || t) || a) || b) || p) := by
  revert x t a b p
  decide

theorem owPipeline_idem (tmpl : Template) (fs : Fs) (root : String)
    (target : InitTarget) (sl : List StackDefinition)
    (hfresh : ∀ q, fs.files q = none) (hv : validateTarget target = none) :
    owPipeline tmpl (owPipeline tmpl fs root target sl) root target sl =
      owPipeline tmpl fs root target sl := by
  have hdAll : ∀ t2 ∈ ALL_PLATFORMS, ∀ rel2 ∈ platformTargets t2,
      rel2 ≠ "docs/backlog/index.md" ∧ rel2 ≠ "" := by decide
  have hPpB : assocLast
      (((expandTargets target).map (fun t => platWriteList tmpl root t sl)).flatten)
      (joinPath root "docs/backlog/index.md") = none :=
    platFlatten_assocLast_none tmpl root target sl "docs/backlog/index.md" hv
      (by decide) hdAll
  have hc1 : (owStage2 tmpl fs root sl).files (joinPath root "docs/backlog/index.md") =
      none := by
    rw [owStage2_files_pB]; exact hfresh _
  have hXpB : (owPipeline tmpl fs root target sl).files
      (joinPath root "docs/backlog/index.md") = some (tmpl.read "backlog-index.md") :=
    owPipeline_files_pB_of_missing tmpl fs root target sl hPpB (hfresh _)
  have hc2 : ((owStage2 tmpl (owPipeline tmpl fs root target sl) root sl).files
      (joinPath root "docs/backlog/index.md")).isSome = true := by
    rw [owStage2_files_pB, hXpB]; rfl
  apply Fs.ext
  · funext q
    cases hP : assocLast
        (((expandTargets target).map (fun t => platWriteList tmpl root t sl)).flatten) q with
    | some c =>
      have hval : ∀ (g : Fs), (owPipeline tmpl g root target sl).files q = some c := by
        intro g
        unfold owPipeline
        rw [applyWrites_files]
        simp only [hP]
      rw [hval, hval]
    | none =>
      by_cases hqB : joinPath root "docs/backlog/index.md" = q
      · rw [← hqB]
        rw [owPipeline_files_pB_of_present tmpl (owPipeline tmpl fs root target sl)
          root target sl hPpB hc2, owStage2_files_pB]
      · rw [owPipeline_files_untouched tmpl (owPipeline tmpl fs root target sl)
            root target sl q hP hqB,
          owPipeline_files_untouched tmpl fs root target sl q hP hqB]
        rw [owStage2_files, owStage2_files]
        by_cases hqA : joinPath root "AGENTS.md" = q
        · rw [if_pos hqA, if_pos hqA]
        · rw [if_neg hqA, if_neg hqA, applyWrites_files q, applyWrites_files q]
          cases hTLq : assocLast (treeWrites tmpl root) q with
          | some T => simp only [hTLq]
          | none =>
            simp only [hTLq]
            have hXq : (owPipeline tmpl fs root target sl).files q =
                if q ∈ SOURCE_FILES.map (fun pc => joinPath root pc.2) then
                  (fs.files q).map (fun c => applyStacks c sl)
                else fs.files q := by
              rw [owPipeline_files_untouched tmpl fs root target sl q hP hqB,
                owStage2_files, if_neg hqA, applyWrites_files q]
              simp only [hTLq]
            by_cases hqSD : q ∈ SOURCE_FILES.map (fun pc => joinPath root pc.2)
            · rw [if_pos hqSD, if_pos hqSD, hXq, if_pos hqSD, hfresh q]
              rfl
            · rw [if_neg hqSD, if_neg hqSD, hXq, if_neg hqSD]
  · funext q
    rw [owPipeline_dirs_of_present tmpl (owPipeline tmpl fs root target sl)
      root target sl q hc2]
    rw [owStage2_dirs]
    rw [owPipeline_dirs_of_missing tmpl fs root target sl q hc1]
    rw [owStage2_dirs]
    exact bool_or_reabsorb _ _ _ _ _
  · rw [owPipeline_entries]

/-- C4: on a fresh project root (no files anywhere), a valid target and an
explicitly supplied non-empty stack list, running init twice in succession
with dryRun=false and overwrite=true yields exactly the filesystem state of
a single run: the second run rewrites every generated file with identical
bytes, skips the pre-existing backlog index, and creates no new
directories. -/
theorem init_rerun_idempotent (env : Env) (tmpl : Template) (fs : Fs) (root : String)
    (target : InitTarget) (sl : List StackDefinition)
    (hfresh : ∀ q, fs.files q = none) (hsl : sl ≠ [])
    (hv : validateTarget target = none) :
    (init env tmpl (init env tmpl fs root target sl ⟨some false, some true⟩).1
        root target sl ⟨some false, some true⟩).1 =
      (init env tmpl fs root target sl ⟨some false, some true⟩).1 := by
  have hlen : sl.length > 0 := List.length_pos.mpr hsl
  rw [init_overwrite_shape env tmpl fs root target sl hv hlen]
  rw [init_overwrite_shape env tmpl (owPipeline tmpl fs root target sl)
    root target sl hv hlen]
  exact owPipeline_idem tmpl fs root target sl hfresh hv

/-- C4 witness. -/
theorem init_rerun_idempotent_witness :
    (init emptyEnv emptyTemplate
        (init emptyEnv emptyTemplate emptyFs "/p" (.str "claude") [pytestStack]
          ⟨some false, some true⟩).1
        "/p" (.str "claude") [pytestStack] ⟨some false, some true⟩).1 =
      (init emptyEnv emptyTemplate emptyFs "/p" (.str "claude") [pytestStack]
        ⟨some false, some true⟩).1 :=
  init_rerun_idempotent emptyEnv emptyTemplate emptyFs "/p" (.str "claude") [pytestStack]
    (fun _ => rfl) (by decide) (by decide)

end SyncLoop
